import Mathlib

/-!
# Verification of the socio.io content-moderation extension

Shallow embedding of the client-side moderation pipeline of the socio.io
browser extension (src/extension/content.js, src/extension/content-new.js,
src/extension/image-processor.js, and the background script), together with
proofs settling the specification claims about it.

Modelling conventions:
* JS strings are modelled by Lean `String`; the sources only manipulate them
  with `length`, `substring`, `trim`, `toLowerCase`, `split`, `includes` and
  word-boundary regexes, which agree with the Lean counterparts on the ASCII
  inputs the claims are about.
* DOM elements are records (`Elem`); an element handle is its numeric `id`.
  `classList.add`/`remove` become list operations that never duplicate a
  class, matching `DOMTokenList` semantics.
* `chrome.storage.local` is the record `Storage` restricted to the keys the
  pipeline writes (`textFiltered`, `imagesFiltered`, `filterHistory`).  Each
  asynchronous read-modify-write of a key is modelled as one atomic update;
  interleavings that lose updates are not modelled.
* The backend reply of a `fetch` is passed in as an explicit argument
  (`Except String AnalyzeTextResp`): `.error` is a network/parse failure,
  `.ok` a parsed JSON body.
* `Math.random() < p` is passed in as an explicit boolean argument.
-/

namespace Socio

/-! ## JS string helpers

All JS string operations the sources use are modelled by structurally
recursive functions on the string's character list (so that concrete runs
reduce inside the kernel); on the ASCII inputs of the claims they agree
with JS, whose `length`/`substring` count UTF-16 units. -/

/-- JS `String.prototype.length` (UTF-16 units; characters here). -/
def jsLength (s : String) : Nat := s.toList.length

/-- JS `s.substring(0, n)`. -/
def jsTake (s : String) (n : Nat) : String := ⟨s.toList.take n⟩

/-- JS `s.substring(n)`. -/
def jsDrop (s : String) (n : Nat) : String := ⟨s.toList.drop n⟩

/-- JS `String.prototype.trim`. -/
def jsTrim (s : String) : String :=
  ⟨((s.toList.dropWhile Char.isWhitespace).reverse.dropWhile Char.isWhitespace).reverse⟩

/-- JS `String.prototype.toLowerCase` (ASCII). -/
def jsToLower (s : String) : String := ⟨s.toList.map Char.toLower⟩

/-- JS `s.split('.')[0]`: the prefix before the first dot (the whole string
when there is none). -/
def jsSplitHeadDot (s : String) : String := ⟨s.toList.takeWhile (· ≠ '.')⟩

/-- JS `String.prototype.includes`: substring containment. -/
def jsIncludes (s sub : String) : Bool :=
  (List.range (s.toList.length + 1)).any fun i =>
    sub.toList.isPrefixOf (s.toList.drop i)

/-- A word character in a JS regex (`\w` / the characters `\b` is sensitive
to): ASCII letters, digits and underscore. -/
def isWordChar (c : Char) : Bool :=
  c.isAlpha || c.isDigit || c = '_'

/-- The regex `\b<word>\b` matches `cs` at position `i`. -/
def wholeWordAt (cs w : List Char) (i : Nat) : Bool :=
  w.isPrefixOf (cs.drop i)
    && (i = 0 || !isWordChar (cs.getD (i - 1) ' '))
    && (i + w.length ≥ cs.length || !isWordChar (cs.getD (i + w.length) ' '))

/-- `new RegExp("\\b" ++ word ++ "\\b", "i").test(text)` for a lowercase
`word` made of word characters, applied to an already lowercased `text`. -/
def testWholeWord (text word : String) : Bool :=
  (List.range (text.toList.length + 1)).any fun i =>
    wholeWordAt text.toList word.toList i

/-! ## Persisted storage, history ledger and stats counters

`chrome.storage.local` as the pipeline sees it: the two counters and the
capped history.  `saveFilterHistory` and the history item shape are
identical in content.js, content-new.js and image-processor.js. -/

/-- One entry of the persisted `filterHistory` ledger. -/
structure HistoryItem where
  htype : String
  content : String
  originalContent : String
  reasons : List String
  timestamp : String
  url : String
  domain : String
deriving DecidableEq, Repr

/-- Page context: `window.location.href`, its hostname, and the current
time, which the sources read ambiently. -/
structure Ctx where
  url : String
  domain : String
  timestamp : String
deriving DecidableEq, Repr

/-- The persisted keys the pipeline writes in `chrome.storage.local`. -/
structure Storage where
  textFiltered : Nat
  imagesFiltered : Nat
  filterHistory : List HistoryItem
deriving DecidableEq, Repr

/-- The history item built by `saveFilterHistory` (same in all three
files).  The JS default `reasons || ['Filtered content']` only fires on an
`undefined` argument, which no modelled caller passes, so `reasons` is used
as given. -/
def mkHistoryItem (ctx : Ctx) (ty content : String) (reasons : List String) :
    HistoryItem :=
  { htype := ty
    content := if ty = "image" then content
               else jsTake content 100 ++ (if jsLength content > 100 then "..." else "")
    originalContent := content
    reasons := reasons
    timestamp := ctx.timestamp
    url := ctx.url
    domain := ctx.domain }

/-- `saveFilterHistory(type, content, reasons)`: unshift the new item, cap
the list at 100, write it back. -/
def saveFilterHistory (ctx : Ctx) (ty content : String) (reasons : List String)
    (st : Storage) : Storage :=
  let history := mkHistoryItem ctx ty content reasons :: st.filterHistory
  let history := if history.length > 100 then history.take 100 else history
  { st with filterHistory := history }

/-- One atomic read-modify-write of the key `<ty>Filtered` (writes to other
keys fall outside the modelled storage). -/
def incrFilteredKey (ty : String) (count : Nat) (st : Storage) : Storage :=
  if ty = "text" then { st with textFiltered := st.textFiltered + count }
  else if ty = "image" then { st with imagesFiltered := st.imagesFiltered + count }
  else st

/-- The background script's handler for an `updateStats` message
(src/unnamed/part_001): increments the persisted `<type>Filtered` key by
`count`. -/
def bgHandleUpdateStats (ty : String) (count : Nat) (st : Storage) : Storage :=
  incrFilteredKey ty count st

/-- `updateStats` of content.js: sends an `updateStats` message (handled by
the background script) and also increments the same persisted key directly. -/
def updateStatsContent (ty : String) (st : Storage) : Storage :=
  incrFilteredKey ty 1 (bgHandleUpdateStats ty 1 st)

/-- `updateStats` of content-new.js: only the `updateStats` message. -/
def updateStatsNew (ty : String) (st : Storage) : Storage :=
  bgHandleUpdateStats ty 1 st

/-- `updateStats` of image-processor.js: the direct storage update plus the
backup `updateStats` message. -/
def updateStatsIp (ty : String) (st : Storage) : Storage :=
  let statType := if ty = "image" then "image" else "text"
  bgHandleUpdateStats statType 1 (incrFilteredKey statType 1 st)

/-! ## DOM elements -/

/-- Element kind: whether the element matches the text candidate selectors
(`p, h1..h6, span, div:not(:has(*)), a, ...`) or the image selector (`img`). -/
inductive EKind where
  | text
  | image
deriving DecidableEq, Repr

/-- A DOM element as the pipeline reads and writes it.  `id` is the element
handle (object identity); `src = ""` models a missing/falsy `src`;
`blurred` models `style.filter === "blur(20px)"`. -/
structure Elem where
  id : Nat
  kind : EKind
  tag : String
  isConnected : Bool
  textContent : String
  src : String
  classes : List String
  blurred : Bool
  naturalWidth : Nat
  naturalHeight : Nat
deriving DecidableEq, Repr

/-- `classList.add`: a `DOMTokenList` never holds a class twice. -/
def addClass (c : String) (cs : List String) : List String :=
  if cs.contains c then cs else cs ++ [c]

/-- `classList.remove`. -/
def removeClass (c : String) (cs : List String) : List String :=
  cs.filter (· ≠ c)

def hasClass (e : Elem) (c : String) : Bool :=
  e.classes.contains c

/-! ## Element classifier: text path

`processTextElement` exists in two divergent versions (content.js and
content-new.js); both are embedded.  The backend reply is an argument. -/

/-- Parsed JSON body of a `/analyze_text` reply; absent fields are `none`. -/
structure AnalyzeTextResp where
  error : Option String := none
  action : String := ""
  processed_text : Option String := none
  reasons : List String := []
deriving DecidableEq, Repr

/-- The value a `processTextElement` / `processImageElement` call resolves
with. -/
inductive ModResult where
  | skipped (reason : String)
  | filtered (action : String) (reasons : List String)
  | kept
  | errored (msg : String)
deriving DecidableEq, Repr

/-- The fixed profanity list of the client-side backup detection. -/
def profanityWords : List String := ["fuck", "fucker", "fucking"]

/-- The client-side detection decision of `processTextElement` (identical in
content.js and content-new.js): case-insensitive whole-word match against
`profanityWords`, forced off for text longer than 200 characters.  The hate
speech list is empty and `isRandomFilter` is hardwired false. -/
def clientSideTextFlag (text : String) : Bool :=
  let lowerText := jsToLower text
  let isProfanity := profanityWords.any fun w => testWholeWord lowerText w
  if jsLength text > 200 then false else isProfanity

/-- The length-tiered placeholder both files build for locally filtered (and
content-new.js remotely removed) text. -/
def localFilteredText (text : String) : String :=
  if jsLength text < 30 then "[Content filtered by Socio.io]"
  else if jsLength text < 100 then
    let start := jsTake text 10
    let stop := jsDrop text (jsLength text - 10)
    start ++ "... [Content filtered by Socio.io] ..." ++ stop
  else
    let firstSentence := jsSplitHeadDot text
    let preview := if jsLength firstSentence > 50 then jsTake firstSentence 50 ++ "..."
                   else firstSentence
    preview ++ "\n\n[Additional content filtered by Socio.io - Click the indicator to view]"

/-- JS `Map.prototype.set`: overwrite in place, else append. -/
def mapSet (k : Nat) (v : String) (m : List (Nat × String)) : List (Nat × String) :=
  if m.any (·.1 = k) then m.map fun p => if p.1 = k then (k, v) else p
  else m ++ [(k, v)]

/-- The page-level state one classifier call touches besides the element
itself: persisted storage, the `encryptedElements` map of content.js, and
the number of floating indicator nodes on the page. -/
structure ModState where
  storage : Storage
  encryptedElements : List (Nat × String)
  indicators : Nat
deriving DecidableEq, Repr

/-- `addModerationIndicator`: appends one floating indicator node to the
page (the geometric removal of stale indicators near the element is not
modelled; the claims only use indicator presence). -/
def addModerationIndicator (ms : ModState) : ModState :=
  { ms with indicators := ms.indicators + 1 }

/-- `processTextElement` of content.js.  `elemId` is the element handle used
as `encryptedElements` key, `resp` the `/analyze_text` reply (`.error` for a
fetch/parse failure). -/
def processTextElementContent (ctx : Ctx) (elemId : Nat)
    (resp : Except String AnalyzeTextResp) (ms : ModState) (e : Elem) :
    ModState × Elem × ModResult :=
  if e.isConnected = false then (ms, e, .skipped "element_not_connected")
  else
    let text := jsTrim e.textContent
    if text = "" then (ms, e, .skipped "no_text")
    else if clientSideTextFlag text then
      let e := { e with textContent := localFilteredText text,
                        classes := addClass "socioio-filtered-text" e.classes }
      let reasons := ["Profanity detected"]
      let ms := addModerationIndicator ms
      let ms := { ms with storage := saveFilterHistory ctx "text" text reasons ms.storage }
      let ms := { ms with storage := updateStatsContent "text" ms.storage }
      (ms, e, .filtered "remove" ["Client-side detection"])
    else
      match resp with
      | .error msg => (ms, e, .errored msg)
      | .ok data =>
        match data.error with
        | some err => (ms, e, .errored err)
        | none =>
          if data.action ≠ "keep" then
            let ms := if data.action = "encrypt"
              then { ms with encryptedElements := mapSet elemId text ms.encryptedElements }
              else ms
            let e := if data.action = "encrypt"
              then { e with classes := addClass "socioio-encrypted" e.classes }
              else e
            let e := { e with textContent := data.processed_text.getD "undefined" }
            let ms := { ms with storage := updateStatsContent "text" ms.storage }
            let ms := addModerationIndicator ms
            (ms, e, .filtered data.action data.reasons)
          else (ms, e, .kept)

/-- `processTextElement` of content-new.js.  Differences from content.js:
the remote branch triggers on `action !== "allow"`, handles only `remove`
and `encrypt` explicitly, builds the tiered placeholder for `remove`, saves
history on both, and keeps no `encryptedElements` map. -/
def processTextElementNew (ctx : Ctx)
    (resp : Except String AnalyzeTextResp) (ms : ModState) (e : Elem) :
    ModState × Elem × ModResult :=
  if e.isConnected = false then (ms, e, .skipped "element_not_connected")
  else
    let text := jsTrim e.textContent
    if text = "" then (ms, e, .skipped "no_text")
    else if clientSideTextFlag text then
      let e := { e with textContent := localFilteredText text,
                        classes := addClass "socioio-filtered-text" e.classes }
      let reasons := ["Profanity detected"]
      let ms := addModerationIndicator ms
      let ms := { ms with storage := saveFilterHistory ctx "text" text reasons ms.storage }
      let ms := { ms with storage := updateStatsNew "text" ms.storage }
      (ms, e, .filtered "remove" reasons)
    else
      match resp with
      | .error msg => (ms, e, .errored msg)
      | .ok data =>
        match data.error with
        | some err => (ms, e, .errored err)
        | none =>
          if data.action ≠ "allow" then
            let (ms, e) :=
              if data.action = "remove" then
                let e := { e with textContent := localFilteredText text,
                                  classes := addClass "socioio-filtered-text" e.classes }
                let ms := addModerationIndicator ms
                let ms := { ms with storage := saveFilterHistory ctx "text" text data.reasons ms.storage }
                (ms, e)
              else if data.action = "encrypt" then
                let e := { e with textContent := data.processed_text.getD "undefined",
                                  classes := addClass "socioio-encrypted" e.classes }
                let ms := addModerationIndicator ms
                let ms := { ms with storage := saveFilterHistory ctx "text" text data.reasons ms.storage }
                (ms, e)
              else (ms, e)
            let ms := { ms with storage := updateStatsNew "text" ms.storage }
            (ms, e, .filtered data.action data.reasons)
          else (ms, e, .kept)

/-! ## Element classifier and DOM mutator: image path (image-processor.js)

`processImageElement` of image-processor.js decides locally (URL keywords,
size, safe hosts, a random sample) and mutates the DOM in place: blur, a
wrapper container created once, a click-to-reveal overlay created once. -/

def explicitKeywords : List String :=
  ["explicit", "nsfw", "adult", "xxx", "porn", "sex"]

def safeImageSources : List String :=
  ["wikipedia.org", "wikimedia.org", "github.com", "googleusercontent.com/a/",
   "gravatar.com", "ytimg.com", "twimg.com", "fbcdn.net", "linkedin.com/media"]

/-- The image element together with the wrapper/overlay structure around it
and the persisted storage.  `wrapperCount` counts `.socioio-image-container`
ancestors of the image (`closest` finds one iff it is positive);
`overlayCount` counts `.socioio-image-overlay` children of that wrapper. -/
structure ImgPage where
  elem : Elem
  wrapperCount : Nat
  overlayCount : Nat
  storage : Storage
deriving DecidableEq, Repr

/-- `processImageElement` of image-processor.js.  `rand` is the sampled
`Math.random() < 0.01` outcome. -/
def processImageElementIp (ctx : Ctx) (rand : Bool) (s : ImgPage) :
    ImgPage × ModResult :=
  if s.elem.isConnected = false then (s, .skipped "element_not_connected")
  else if s.elem.src = "" then (s, .skipped "no_source")
  else
    let src := s.elem.src
    let lowerSrc := jsToLower src
    let containsExplicitKeyword := explicitKeywords.any fun k => jsIncludes lowerSrc k
    let isVerySmallImage := s.elem.naturalWidth < 50 || s.elem.naturalHeight < 50
    let isFromSafeSource := safeImageSources.any fun k => jsIncludes lowerSrc k
    let shouldRandomlyFilter := rand
    let shouldFilter := containsExplicitKeyword
      || (shouldRandomlyFilter && !isFromSafeSource && !isVerySmallImage
          && decide (s.elem.naturalWidth > 200) && decide (s.elem.naturalHeight > 200))
    if shouldFilter then
      let s := { s with elem := { s.elem with blurred := true } }
      let s := if s.wrapperCount = 0 then { s with wrapperCount := s.wrapperCount + 1 }
               else s
      let s := if s.overlayCount = 0 then { s with overlayCount := s.overlayCount + 1 }
               else s
      let filterReason := if containsExplicitKeyword then "Image may contain explicit content"
        else if shouldRandomlyFilter then "Image selected for content review"
        else "Image filtered"
      let s := { s with storage := saveFilterHistory ctx "image" src [filterReason] s.storage }
      let s := { s with storage := updateStatsIp "image" s.storage }
      let s := { s with storage :=
        { s.storage with imagesFiltered := s.storage.imagesFiltered + 1 } }
      let filterReasons := if containsExplicitKeyword then ["Image may contain explicit content"]
        else if shouldRandomlyFilter then ["Image selected for content review"]
        else ["Image filtered for safety"]
      (s, .filtered "blur" filterReasons)
    else (s, .kept)

/-! ## History ledger: insertion sequences -/

/-- A sequence of `saveFilterHistory` insertions, each given as
`(type, content, reasons)`, applied in order. -/
def recordSeq (ctx : Ctx) (st : Storage) (entries : List (String × String × List String)) :
    Storage :=
  entries.foldl (fun acc p => saveFilterHistory ctx p.1 p.2.1 p.2.2 acc) st

theorem take_append_take {α : Type} (A B : List α) (n : Nat) :
    (A ++ B.take n).take n = (A ++ B).take n := by
  rw [List.take_append_eq_append_take, List.take_append_eq_append_take,
    List.take_take, Nat.min_eq_left (Nat.sub_le n A.length)]

theorem saveFilterHistory_filterHistory (ctx : Ctx) (ty c : String)
    (rs : List String) (st : Storage) :
    (saveFilterHistory ctx ty c rs st).filterHistory =
      (mkHistoryItem ctx ty c rs :: st.filterHistory).take 100 := by
  unfold saveFilterHistory
  dsimp only
  split
  · rfl
  · rename_i h
    rw [List.take_of_length_le (by omega)]

theorem saveFilterHistory_length_le (ctx : Ctx) (ty c : String)
    (rs : List String) (st : Storage) :
    (saveFilterHistory ctx ty c rs st).filterHistory.length ≤ 100 := by
  rw [saveFilterHistory_filterHistory]
  simp [List.length_take]

theorem recordSeq_length_le (ctx : Ctx) (st : Storage)
    (entries : List (String × String × List String))
    (h : st.filterHistory.length ≤ 100) :
    (recordSeq ctx st entries).filterHistory.length ≤ 100 := by
  induction entries generalizing st with
  | nil => exact h
  | cons p rest ih =>
    exact ih _ (saveFilterHistory_length_le ctx p.1 p.2.1 p.2.2 st)

theorem recordSeq_eq_reverse_take (ctx : Ctx) (st : Storage)
    (entries : List (String × String × List String))
    (h : st.filterHistory.length ≤ 100) :
    (recordSeq ctx st entries).filterHistory =
      ((entries.map fun p => mkHistoryItem ctx p.1 p.2.1 p.2.2).reverse
        ++ st.filterHistory).take 100 := by
  induction entries generalizing st with
  | nil =>
    simp [recordSeq, List.take_of_length_le h]
  | cons p rest ih =>
    have step : recordSeq ctx st (p :: rest) =
        recordSeq ctx (saveFilterHistory ctx p.1 p.2.1 p.2.2 st) rest := rfl
    rw [step, ih _ (saveFilterHistory_length_le ctx p.1 p.2.1 p.2.2 st),
      saveFilterHistory_filterHistory]
    rw [take_append_take]
    simp

/-- C5: History ledger cap — after any (nonempty) sequence of record
insertions the persisted `filterHistory` holds at most 100 entries; each new
entry is inserted at the head; and inserting 105 entries into an empty
ledger leaves exactly the 100 most recent, newest first (FIFO eviction of
the oldest). -/
theorem historyLedgerCap (ctx : Ctx) (st : Storage)
    (entries : List (String × String × List String))
    (h0 : st.filterHistory = [])
    (h105 : entries.length = 105) :
    (∀ (st' : Storage) (es : List (String × String × List String)), es ≠ [] →
      (recordSeq ctx st' es).filterHistory.length ≤ 100)
    ∧ (∀ (ty c : String) (rs : List String) (st' : Storage),
        (saveFilterHistory ctx ty c rs st').filterHistory.head? =
          some (mkHistoryItem ctx ty c rs))
    ∧ (recordSeq ctx st entries).filterHistory =
        ((entries.map fun p => mkHistoryItem ctx p.1 p.2.1 p.2.2).reverse).take 100
    ∧ (recordSeq ctx st entries).filterHistory.length = 100 := by
  refine ⟨?_, ?_, ?_, ?_⟩
  · intro st' es hne
    match es with
    | p :: rest =>
      have step : recordSeq ctx st' (p :: rest) =
          recordSeq ctx (saveFilterHistory ctx p.1 p.2.1 p.2.2 st') rest := rfl
      rw [step]
      exact recordSeq_length_le ctx _ rest
        (saveFilterHistory_length_le ctx p.1 p.2.1 p.2.2 st')
  · intro ty c rs st'
    rw [saveFilterHistory_filterHistory, List.head?_take]
    simp
  · rw [recordSeq_eq_reverse_take ctx st entries (by rw [h0]; simp), h0]
    simp
  · rw [recordSeq_eq_reverse_take ctx st entries (by rw [h0]; simp), h0]
    simp [h105]

def ctx0 : Ctx := ⟨"http://example.com/page", "example.com", "2026-01-01T00:00:00Z"⟩

def witnessEntries : List (String × String × List String) :=
  (List.range 105).map fun i => ("text", toString i, [])

/-- Witness for C5 at a concrete insertion sequence of 105 entries. -/
theorem historyLedgerCapWitness :
    (recordSeq ctx0 ⟨0, 0, []⟩ witnessEntries).filterHistory.length = 100 :=
  (historyLedgerCap ctx0 ⟨0, 0, []⟩ witnessEntries rfl (by simp [witnessEntries])).2.2.2

/-! ## C1: handling of unrecognized backend action strings -/

/-- C1 (amended): an unrecognized backend action string is not treated as
Keep.  In content.js any action other than `"keep"` is applied as a
redaction: the element's content is replaced by the reply's
`processed_text` and the persisted text counter is incremented by two
(direct write plus background message), with no HistoryEntry appended.  In
content-new.js an action outside `{allow, remove, encrypt}` leaves the
element unmodified and appends no HistoryEntry, but still increments the
persisted text counter by one. -/
theorem unrecognizedActionBehavior (ctx : Ctx) (elemId : Nat) (e : Elem)
    (ms : ModState) (a : String) (pt : Option String) (rs : List String)
    (hConn : e.isConnected = true)
    (hText : jsTrim e.textContent ≠ "")
    (hLocal : clientSideTextFlag (jsTrim e.textContent) = false)
    (hKeep : a ≠ "keep") (hAllow : a ≠ "allow")
    (hRemove : a ≠ "remove") (hEncrypt : a ≠ "encrypt") :
    ((processTextElementContent ctx elemId
        (.ok { action := a, processed_text := pt, reasons := rs }) ms e).2.1.textContent
        = pt.getD "undefined"
      ∧ (processTextElementContent ctx elemId
          (.ok { action := a, processed_text := pt, reasons := rs }) ms e).1.storage.textFiltered
          = ms.storage.textFiltered + 2
      ∧ (processTextElementContent ctx elemId
          (.ok { action := a, processed_text := pt, reasons := rs }) ms e).1.storage.filterHistory
          = ms.storage.filterHistory)
    ∧ ((processTextElementNew ctx
          (.ok { action := a, processed_text := pt, reasons := rs }) ms e).2.1 = e
      ∧ (processTextElementNew ctx
          (.ok { action := a, processed_text := pt, reasons := rs }) ms e).1.storage.filterHistory
          = ms.storage.filterHistory
      ∧ (processTextElementNew ctx
          (.ok { action := a, processed_text := pt, reasons := rs }) ms e).1.storage.textFiltered
          = ms.storage.textFiltered + 1) := by
  simp only [processTextElementContent, processTextElementNew, hConn, hLocal,
    updateStatsContent, updateStatsNew, bgHandleUpdateStats, incrFilteredKey,
    addModerationIndicator, Bool.false_eq_true, if_false, if_neg hText,
    if_neg hKeep, if_neg hAllow, if_neg hRemove, if_neg hEncrypt]
  simp [hKeep, hAllow, hRemove, hEncrypt]

def sampleTextElem : Elem :=
  { id := 1, kind := .text, tag := "p", isConnected := true,
    textContent := "hello world", src := "", classes := [], blurred := false,
    naturalWidth := 0, naturalHeight := 0 }

def ms0 : ModState := { storage := ⟨0, 0, []⟩, encryptedElements := [], indicators := 0 }

/-- C1 counterexample: with backend action `"flag"` (outside the recognized
set) on a connected text element, content.js replaces the element's content
with the reply's `processed_text` and increments the persisted text counter
to 2, and content-new.js increments it to 1 — the element is not left
alone and the counter does not stay at 0. -/
theorem unrecognizedActionNotFailOpen :
    (processTextElementContent ctx0 1
        (.ok { action := "flag", processed_text := some "MODIFIED", reasons := [] })
        ms0 sampleTextElem).2.1.textContent = "MODIFIED"
    ∧ (processTextElementContent ctx0 1
        (.ok { action := "flag", processed_text := some "MODIFIED", reasons := [] })
        ms0 sampleTextElem).1.storage.textFiltered = 2
    ∧ (processTextElementNew ctx0
        (.ok { action := "flag", processed_text := some "MODIFIED", reasons := [] })
        ms0 sampleTextElem).1.storage.textFiltered = 1
    ∧ ms0.storage.textFiltered = 0 := by
  decide

/-- Witness for C1 at a concrete element and reply. -/
theorem unrecognizedActionBehaviorWitness :
    (processTextElementNew ctx0
        (.ok { action := "flag", processed_text := some "X", reasons := [] })
        ms0 sampleTextElem).1.storage.textFiltered = ms0.storage.textFiltered + 1 :=
  (unrecognizedActionBehavior ctx0 1 sampleTextElem ms0 "flag" (some "X") []
    rfl (by decide) (by decide) (by decide) (by decide) (by decide) (by decide)).2.2.2

/-! ## C2: stats counter and history effects of a redaction -/

/-- C2 (amended): a redacting verdict does not increment the persisted
counter exactly once.  On content.js's remote text path a `remove`/`encrypt`
verdict increments `textFiltered` by two (the direct storage write plus the
background message handler's write) and appends no HistoryEntry at all; on
image-processor.js's blur path a filtering verdict increments
`imagesFiltered` by three (direct write, backup message, and the extra
forced direct update) and appends exactly one HistoryEntry. -/
theorem redactionStatsAndHistoryEffects (ctx : Ctx) (elemId : Nat) (e : Elem)
    (ms : ModState) (a : String) (pt : Option String) (rs : List String)
    (img : ImgPage) (rand : Bool)
    (hConn : e.isConnected = true)
    (hText : jsTrim e.textContent ≠ "")
    (hLocal : clientSideTextFlag (jsTrim e.textContent) = false)
    (hRedact : a = "remove" ∨ a = "encrypt")
    (hIConn : img.elem.isConnected = true)
    (hISrc : img.elem.src ≠ "")
    (hIKey : explicitKeywords.any (fun k => jsIncludes (jsToLower img.elem.src) k) = true)
    (hIHist : img.storage.filterHistory.length ≤ 99) :
    ((processTextElementContent ctx elemId
        (.ok { action := a, processed_text := pt, reasons := rs }) ms e).1.storage.textFiltered
        = ms.storage.textFiltered + 2
      ∧ (processTextElementContent ctx elemId
          (.ok { action := a, processed_text := pt, reasons := rs }) ms e).1.storage.filterHistory
          = ms.storage.filterHistory)
    ∧ ((processImageElementIp ctx rand img).1.storage.imagesFiltered
        = img.storage.imagesFiltered + 3
      ∧ (processImageElementIp ctx rand img).1.storage.filterHistory
          = mkHistoryItem ctx "image" img.elem.src
              ["Image may contain explicit content"] :: img.storage.filterHistory) := by
  have hKeep : a ≠ "keep" := by rcases hRedact with h | h <;> simp [h]
  constructor
  · rcases hRedact with h | h <;>
      simp [processTextElementContent, hConn, hLocal, h,
        updateStatsContent, bgHandleUpdateStats, incrFilteredKey,
        addModerationIndicator, if_neg hText]
  · have hcap : (mkHistoryItem ctx "image" img.elem.src
        ["Image may contain explicit content"] :: img.storage.filterHistory).length ≤ 100 := by
      simp
      omega
    simp [processImageElementIp, hIConn, hIKey, if_neg hISrc,
      updateStatsIp, bgHandleUpdateStats, incrFilteredKey,
      apply_ite ImgPage.storage,
      saveFilterHistory, if_neg (by omega : ¬ (mkHistoryItem ctx "image" img.elem.src
        ["Image may contain explicit content"] :: img.storage.filterHistory).length > 100)]
    omega

def sampleImgPage : ImgPage :=
  { elem :=
      { id := 2, kind := .image, tag := "img", isConnected := true,
        textContent := "", src := "http://example.com/xxx.jpg", classes := [],
        blurred := false, naturalWidth := 400, naturalHeight := 300 },
    wrapperCount := 0, overlayCount := 0, storage := ⟨0, 0, []⟩ }

/-- C2 counterexample: on content.js's remote path a `remove` verdict on a
connected element takes the persisted text counter from 0 to 2 and leaves
`filterHistory` empty — neither the counter nor the ledger moves by exactly
one. -/
theorem redactionDoubleCountCex :
    (processTextElementContent ctx0 1
        (.ok { action := "remove", processed_text := some "[removed]", reasons := [] })
        ms0 sampleTextElem).1.storage.textFiltered = 2
    ∧ (processTextElementContent ctx0 1
        (.ok { action := "remove", processed_text := some "[removed]", reasons := [] })
        ms0 sampleTextElem).1.storage.filterHistory = []
    ∧ ms0.storage.textFiltered = 0 := by
  decide

/-- Witness for C2 at a concrete text element and image. -/
theorem redactionStatsAndHistoryEffectsWitness :
    (processImageElementIp ctx0 false sampleImgPage).1.storage.imagesFiltered
      = sampleImgPage.storage.imagesFiltered + 3 :=
  (redactionStatsAndHistoryEffects ctx0 1 sampleTextElem ms0 "remove" (some "x") []
    sampleImgPage false rfl (by decide) (by decide) (Or.inl rfl) rfl (by decide)
    (by decide) (by decide)).2.1

/-! ## C6: local profanity heuristic scenario -/

/-- C6 (amended): a connected text element whose trimmed content has length
40 and whole-word-matches a listed profanity word resolves locally in
content.js: the content becomes the first 10 characters + the filter marker
+ the last 10 characters, the filtered marker class is added, one
HistoryEntry is appended, the backend reply is ignored entirely — but the
persisted text counter is incremented by two (direct write plus background
message), not by one.  Text longer than 200 characters is exempt from the
local filtering decision. -/
theorem localProfanityScenario (ctx : Ctx) (elemId : Nat) (e : Elem)
    (ms : ModState) (resp : Except String AnalyzeTextResp)
    (hConn : e.isConnected = true)
    (hLen : jsLength (jsTrim e.textContent) = 40)
    (hProf : (profanityWords.any fun w =>
        testWholeWord (jsToLower (jsTrim e.textContent)) w) = true)
    (hHist : ms.storage.filterHistory.length ≤ 99) :
    ((processTextElementContent ctx elemId resp ms e).2.1.textContent
        = jsTake (jsTrim e.textContent) 10 ++ "... [Content filtered by Socio.io] ..."
          ++ jsDrop (jsTrim e.textContent) 30)
    ∧ (processTextElementContent ctx elemId resp ms e).2.1.classes
        = addClass "socioio-filtered-text" e.classes
    ∧ (processTextElementContent ctx elemId resp ms e).1.storage.filterHistory
        = mkHistoryItem ctx "text" (jsTrim e.textContent) ["Profanity detected"]
            :: ms.storage.filterHistory
    ∧ (processTextElementContent ctx elemId resp ms e).1.storage.textFiltered
        = ms.storage.textFiltered + 2
    ∧ (∀ resp' : Except String AnalyzeTextResp,
        processTextElementContent ctx elemId resp' ms e
          = processTextElementContent ctx elemId resp ms e)
    ∧ (∀ t' : String, jsLength t' > 200 → clientSideTextFlag t' = false) := by
  have hText : jsTrim e.textContent ≠ "" := by
    intro h
    rw [h] at hLen
    simp [jsLength] at hLen
  have hFlag : clientSideTextFlag (jsTrim e.textContent) = true := by
    simp [clientSideTextFlag, hProf, hLen]
  refine ⟨?_, ?_, ?_, ?_, ?_, ?_⟩
  · simp [processTextElementContent, hConn, hFlag, if_neg hText,
      localFilteredText, hLen]
  · simp [processTextElementContent, hConn, hFlag, if_neg hText]
  · have hfh := saveFilterHistory_filterHistory ctx "text" (jsTrim e.textContent)
      ["Profanity detected"] ms.storage
    rw [List.take_of_length_le (by simp only [List.length_cons]; omega)] at hfh
    simp [processTextElementContent, hConn, hFlag, if_neg hText,
      updateStatsContent, bgHandleUpdateStats, incrFilteredKey,
      addModerationIndicator, hfh]
  · simp [processTextElementContent, hConn, hFlag, if_neg hText,
      updateStatsContent, bgHandleUpdateStats, incrFilteredKey,
      addModerationIndicator, saveFilterHistory]
  · intro resp'
    simp [processTextElementContent, hConn, hFlag, if_neg hText]
  · intro t' h
    simp [clientSideTextFlag, if_pos h]

def profanityElem : Elem :=
  { id := 3, kind := .text, tag := "p", isConnected := true,
    textContent := "some fucking text that is forty chars ok", src := "",
    classes := [], blurred := false, naturalWidth := 0, naturalHeight := 0 }

/-- C6 counterexample: on the concrete 40-character profanity scenario the
persisted text counter rises from 0 to 2, not by one. -/
theorem localProfanityCounterCex :
    (processTextElementContent ctx0 3 (.error "backend down") ms0
        profanityElem).1.storage.textFiltered = 2
    ∧ ¬ ((processTextElementContent ctx0 3 (.error "backend down") ms0
        profanityElem).1.storage.textFiltered = ms0.storage.textFiltered + 1) := by
  decide

/-- Witness for C6 at the concrete 40-character profanity text. -/
theorem localProfanityScenarioWitness :
    (processTextElementContent ctx0 3 (.error "backend down") ms0
        profanityElem).2.1.textContent
      = jsTake (jsTrim profanityElem.textContent) 10
        ++ "... [Content filtered by Socio.io] ..."
        ++ jsDrop (jsTrim profanityElem.textContent) 30 :=
  (localProfanityScenario ctx0 3 profanityElem ms0 (.error "backend down")
    rfl (by decide) (by decide) (by decide)).1

/-! ## C9: blur idempotence -/

theorem ipKeywordFields (ctx : Ctx) (r : Bool) (s : ImgPage)
    (hConn : s.elem.isConnected = true) (hSrc : s.elem.src ≠ "")
    (hKey : (explicitKeywords.any fun k => jsIncludes (jsToLower s.elem.src) k) = true) :
    (processImageElementIp ctx r s).1.wrapperCount
        = (if s.wrapperCount = 0 then 1 else s.wrapperCount)
    ∧ (processImageElementIp ctx r s).1.overlayCount
        = (if s.overlayCount = 0 then 1 else s.overlayCount)
    ∧ (processImageElementIp ctx r s).1.elem.isConnected = true
    ∧ (processImageElementIp ctx r s).1.elem.src = s.elem.src := by
  simp only [processImageElementIp, hConn, hKey, if_neg hSrc,
    Bool.false_eq_true, if_false, Bool.true_or, if_true]
  split_ifs <;> simp_all

/-- C9: applying the blur treatment of image-processor.js twice to the same
image element produces exactly one wrapper container and one
click-to-reveal overlay: on the second application the existing wrapper and
overlay are detected and reused, so no nested wrappers or duplicate
overlays arise. -/
theorem blurIdempotence (ctx : Ctx) (r1 r2 : Bool) (s : ImgPage)
    (hConn : s.elem.isConnected = true)
    (hSrc : s.elem.src ≠ "")
    (hKey : (explicitKeywords.any fun k => jsIncludes (jsToLower s.elem.src) k) = true)
    (hW : s.wrapperCount = 0) (hO : s.overlayCount = 0) :
    ((processImageElementIp ctx r1 s).1.wrapperCount = 1
      ∧ (processImageElementIp ctx r1 s).1.overlayCount = 1)
    ∧ ((processImageElementIp ctx r2 (processImageElementIp ctx r1 s).1).1.wrapperCount = 1
      ∧ (processImageElementIp ctx r2 (processImageElementIp ctx r1 s).1).1.overlayCount = 1) := by
  obtain ⟨w1, o1, c1, src1⟩ := ipKeywordFields ctx r1 s hConn hSrc hKey
  rw [hW] at w1
  rw [hO] at o1
  simp only [if_pos] at w1 o1
  have hSrc1 : (processImageElementIp ctx r1 s).1.elem.src ≠ "" := by
    rw [src1]; exact hSrc
  have hKey1 : (explicitKeywords.any fun k =>
      jsIncludes (jsToLower (processImageElementIp ctx r1 s).1.elem.src) k) = true := by
    rw [src1]; exact hKey
  obtain ⟨w2, o2, c2, src2⟩ := ipKeywordFields ctx r2 _ c1 hSrc1 hKey1
  rw [w1] at w2
  rw [o1] at o2
  simp only [if_neg (by omega : ¬ (1 : Nat) = 0)] at w2 o2
  exact ⟨⟨w1, o1⟩, ⟨w2, o2⟩⟩

/-- Witness for C9 at a concrete explicit-keyword image. -/
theorem blurIdempotenceWitness :
    (processImageElementIp ctx0 false
        (processImageElementIp ctx0 false sampleImgPage).1).1.wrapperCount = 1 :=
  ((blurIdempotence ctx0 false false sampleImgPage rfl (by decide) (by decide)
    rfl rfl).2).1

/-! ## Page state and scanner (content.js)

The global mutable state of content.js plus the live DOM it scans.
`enqueueLog` is an audit field recording, in order, every item ever pushed
onto `processingQueue` (the queue itself is drained by the batch
scheduler); it is written exactly where the queue is appended. -/

def EXCLUSION_CLASS : String := "socioio-processed"

def BATCH_SIZE : Nat := 5

structure ContentState where
  isEnabled : Bool
  currentlyProcessing : Bool
  processingQueue : List (EKind × Nat)
  textElementsProcessed : List Nat
  imageElementsProcessed : List Nat
  encryptedElements : List (Nat × String)
  dom : List Elem
  indicators : Nat
  overlays : Nat
  blockedNotices : Nat
  storage : Storage
  enqueueLog : List (EKind × Nat)
deriving Repr

/-- `element.classList.add(c)` through the handle `i`. -/
def domAddClass (dom : List Elem) (i : Nat) (c : String) : List Elem :=
  dom.map fun e => if e.id = i then { e with classes := addClass c e.classes } else e

/-- One iteration of the scanner's text loop: skip empty/whitespace-only
text, skip members of the processed set, otherwise push a work item and
mark the element (set insertion and marker class) synchronously. -/
def scanTextStep (s : ContentState) (e : Elem) : ContentState :=
  if jsTrim e.textContent = "" then s
  else if s.textElementsProcessed.contains e.id then s
  else { s with
    processingQueue := s.processingQueue ++ [(EKind.text, e.id)],
    enqueueLog := s.enqueueLog ++ [(EKind.text, e.id)],
    textElementsProcessed := s.textElementsProcessed ++ [e.id],
    dom := domAddClass s.dom e.id EXCLUSION_CLASS }

/-- One iteration of the scanner's image loop. -/
def scanImageStep (s : ContentState) (e : Elem) : ContentState :=
  if e.src = "" then s
  else if s.imageElementsProcessed.contains e.id then s
  else { s with
    processingQueue := s.processingQueue ++ [(EKind.image, e.id)],
    enqueueLog := s.enqueueLog ++ [(EKind.image, e.id)],
    imageElementsProcessed := s.imageElementsProcessed ++ [e.id],
    dom := domAddClass s.dom e.id EXCLUSION_CLASS }

/-- `document.querySelectorAll(TEXT_SELECTORS + ':not(.socioio-processed)')`:
the static snapshot of unmarked text candidates. -/
def textCandidates (dom : List Elem) : List Elem :=
  dom.filter fun e => e.kind = EKind.text && !(hasClass e EXCLUSION_CLASS)

/-- `document.querySelectorAll('img:not(.socioio-processed)')`. -/
def imageCandidates (dom : List Elem) : List Elem :=
  dom.filter fun e => e.kind = EKind.image && !(hasClass e EXCLUSION_CLASS)

/-- The synchronous entry of `processNextBatch`: a no-op while a batch is
processing, the queue is empty, or protection is disabled; otherwise flip
to processing and splice the head batch off the queue (the spliced items
are dispatched asynchronously; their all-settled callback is the
`batchEndC` event). -/
def processNextBatchC (s : ContentState) : ContentState :=
  if s.currentlyProcessing || s.processingQueue.isEmpty || s.isEnabled = false then s
  else { s with currentlyProcessing := true,
                processingQueue := s.processingQueue.drop BATCH_SIZE }

/-- The `Promise.allSettled` callback of `processNextBatch` flipping the
flag back (the re-trigger it may schedule is a later `processNextBatchC`). -/
def batchEndC (s : ContentState) : ContentState :=
  { s with currentlyProcessing := false }

/-- `scanContentForModeration` of content.js: no-op when disabled; text
pass, then image pass over the then-current DOM, then the batch trigger
when the queue is non-empty.  (`storeProcessedElements` writes only
`sessionStorage` and is outside the modelled state.) -/
def scanContentForModeration (s : ContentState) : ContentState :=
  if s.isEnabled = false then s
  else
    let s1 := (textCandidates s.dom).foldl scanTextStep s
    let s2 := (imageCandidates s1.dom).foldl scanImageStep s1
    if s2.processingQueue.length > 0 then processNextBatchC s2 else s2

/-- A character-data mutation of the live DOM between scans. -/
def domSetText (s : ContentState) (i : Nat) (t : String) : ContentState :=
  { s with dom := s.dom.map fun e => if e.id = i then { e with textContent := t } else e }

/-- New nodes inserted by the page: fresh identities only (an element
removed and recreated is a new element). -/
def freshFor (s : ContentState) (es : List Elem) : Prop :=
  (es.map Elem.id).Nodup ∧ ∀ e ∈ es, ∀ d ∈ s.dom, e.id ≠ d.id

/-- Executions of the pipeline around the scanner: any interleaving of
scans, batch dequeues/completions, character-data mutations and fresh node
insertions. -/
inductive Reaches : ContentState → ContentState → Prop
  | refl (s : ContentState) : Reaches s s
  | scan {s t : ContentState} : Reaches s t → Reaches s (scanContentForModeration t)
  | batchStart {s t : ContentState} : Reaches s t → Reaches s (processNextBatchC t)
  | batchEnd {s t : ContentState} : Reaches s t → Reaches s (batchEndC t)
  | setText {s t : ContentState} (i : Nat) (txt : String) :
      Reaches s t → Reaches s (domSetText t i txt)
  | addElems {s t : ContentState} (es : List Elem) :
      freshFor t es → Reaches s t → Reaches s { t with dom := t.dom ++ es }

/-- The kind of the element a handle refers to. -/
def kindOf (dom : List Elem) (i : Nat) : Option EKind :=
  (dom.find? fun e => e.id = i).map Elem.kind

/-- The element with handle `i` carries the processed marker class. -/
def domHasExclusion (dom : List Elem) (i : Nat) : Prop :=
  ∃ e ∈ dom, e.id = i ∧ hasClass e EXCLUSION_CLASS = true

/-- Scanner invariant: element identities are unique, no element handle was
ever enqueued twice, and every enqueued handle is in the matching processed
set, refers to an element of the matching kind, and carries the marker
class. -/
structure ScanInv (s : ContentState) : Prop where
  domNodup : (s.dom.map Elem.id).Nodup
  logNodup : (s.enqueueLog.map Prod.snd).Nodup
  logText : ∀ i, (EKind.text, i) ∈ s.enqueueLog →
    i ∈ s.textElementsProcessed ∧ kindOf s.dom i = some EKind.text
  logImage : ∀ i, (EKind.image, i) ∈ s.enqueueLog →
    i ∈ s.imageElementsProcessed ∧ kindOf s.dom i = some EKind.image
  logClass : ∀ p ∈ s.enqueueLog, domHasExclusion s.dom p.2

/-! ### Preservation of the scanner invariant -/

/-- The identity/kind signature of the DOM. -/
def domSig (dom : List Elem) : List (Nat × EKind) :=
  dom.map fun e => (e.id, e.kind)

/-- The identity/kind/content signature of the DOM: preserved by marker
additions within one scan. -/
def domCSig (dom : List Elem) : List (Nat × EKind × String × String) :=
  dom.map fun e => (e.id, e.kind, e.textContent, e.src)

theorem domSig_map (dom : List Elem) (f : Elem → Elem)
    (h : ∀ e, (f e).id = e.id ∧ (f e).kind = e.kind) :
    domSig (dom.map f) = domSig dom := by
  unfold domSig
  rw [List.map_map]
  exact List.map_congr_left fun e _ => by simp [(h e).1, (h e).2]

theorem domCSig_map (dom : List Elem) (f : Elem → Elem)
    (h : ∀ e, (f e).id = e.id ∧ (f e).kind = e.kind
      ∧ (f e).textContent = e.textContent ∧ (f e).src = e.src) :
    domCSig (dom.map f) = domCSig dom := by
  unfold domCSig
  rw [List.map_map]
  exact List.map_congr_left fun e _ => by
    simp [(h e).1, (h e).2.1, (h e).2.2.1, (h e).2.2.2]

theorem domSig_domAddClass (dom : List Elem) (i : Nat) (c : String) :
    domSig (domAddClass dom i c) = domSig dom :=
  domSig_map dom _ fun e => by split <;> simp

theorem domCSig_domAddClass (dom : List Elem) (i : Nat) (c : String) :
    domCSig (domAddClass dom i c) = domCSig dom :=
  domCSig_map dom _ fun e => by split <;> simp

theorem ids_eq_of_sig {d1 d2 : List Elem} (h : domSig d1 = domSig d2) :
    d1.map Elem.id = d2.map Elem.id := by
  have h' : (domSig d1).map Prod.fst = (domSig d2).map Prod.fst := by rw [h]
  simpa [domSig, List.map_map] using h'

theorem kindOf_eq_sig (dom : List Elem) (i : Nat) :
    kindOf dom i = ((domSig dom).find? fun p => p.1 = i).map Prod.snd := by
  induction dom with
  | nil => rfl
  | cons e rest ih =>
    by_cases h : e.id = i
    · unfold kindOf domSig
      rw [List.map_cons, List.find?_cons_of_pos _ (by simp [h]),
        List.find?_cons_of_pos _ (by simp [h])]
      rfl
    · unfold kindOf domSig
      rw [List.map_cons, List.find?_cons_of_neg _ (by simp [h]),
        List.find?_cons_of_neg _ (by simp [h])]
      exact ih

theorem kindOf_congr {d1 d2 : List Elem} (h : domSig d1 = domSig d2) (i : Nat) :
    kindOf d1 i = kindOf d2 i := by
  rw [kindOf_eq_sig, kindOf_eq_sig, h]

theorem kindOf_of_mem_sig {dom : List Elem} {i : Nat} {k : EKind}
    (hnd : (dom.map Elem.id).Nodup) (hm : (i, k) ∈ domSig dom) :
    kindOf dom i = some k := by
  induction dom with
  | nil => simp [domSig] at hm
  | cons e rest ih =>
    simp only [domSig, List.map_cons, List.mem_cons] at hm
    simp only [List.map_cons, List.nodup_cons] at hnd
    rcases hm with h | h
    · have hi : e.id = i := by
        have h2 := congrArg Prod.fst h
        simpa using h2.symm
      have hk : e.kind = k := by
        have h2 := congrArg Prod.snd h
        simpa using h2.symm
      unfold kindOf
      rw [List.find?_cons_of_pos _ (by simp [hi])]
      simp [hk]
    · have hir : i ∈ rest.map Elem.id := by
        have h2 := List.mem_map_of_mem Prod.fst h
        simpa [domSig, List.map_map] using h2
      have hne : ¬ e.id = i := fun he => hnd.1 (he ▸ hir)
      unfold kindOf
      rw [List.find?_cons_of_neg _ (by simp [hne])]
      exact ih hnd.2 h

theorem mem_sig_of_mem {dom : List Elem} {e : Elem} (h : e ∈ dom) :
    (e.id, e.kind) ∈ domSig dom :=
  List.mem_map_of_mem _ h

theorem exists_of_mem_sig {dom : List Elem} {i : Nat} {k : EKind}
    (h : (i, k) ∈ domSig dom) : ∃ d ∈ dom, d.id = i := by
  obtain ⟨d, hd, he⟩ := List.mem_map.mp h
  exact ⟨d, hd, congrArg Prod.fst he⟩

theorem contains_addClass_self (c : String) (cs : List String) :
    (addClass c cs).contains c = true := by
  unfold addClass
  split
  · assumption
  · simp

theorem contains_addClass_of {cs : List String} {c c' : String}
    (h : cs.contains c' = true) : (addClass c cs).contains c' = true := by
  unfold addClass
  split
  · exact h
  · simp at h ⊢
    exact Or.inl h

theorem domHasExclusion_map (dom : List Elem) (f : Elem → Elem) (j : Nat)
    (hid : ∀ e, (f e).id = e.id)
    (hcl : ∀ e, hasClass e EXCLUSION_CLASS = true → hasClass (f e) EXCLUSION_CLASS = true)
    (h : domHasExclusion dom j) : domHasExclusion (dom.map f) j := by
  obtain ⟨e, he, hej, hecl⟩ := h
  exact ⟨f e, List.mem_map_of_mem f he, by rw [hid e, hej], hcl e hecl⟩

theorem domHasExclusion_domAddClass_of {dom : List Elem} {j i : Nat} {c : String}
    (h : domHasExclusion dom j) : domHasExclusion (domAddClass dom i c) j := by
  refine domHasExclusion_map dom _ j (fun e => by split <;> simp)
    (fun e hc => ?_) h
  split
  · simpa [hasClass] using contains_addClass_of (c := c) (by simpa [hasClass] using hc)
  · exact hc

theorem domHasExclusion_domAddClass_self {dom : List Elem} {i : Nat}
    (h : ∃ d ∈ dom, d.id = i) :
    domHasExclusion (domAddClass dom i EXCLUSION_CLASS) i := by
  obtain ⟨d, hd, hdi⟩ := h
  refine ⟨(fun e => if e.id = i then { e with classes := addClass EXCLUSION_CLASS e.classes }
    else e) d, List.mem_map_of_mem _ hd, ?_, ?_⟩
  · simp [hdi]
  · simp only [hdi, if_pos rfl]
    simpa [hasClass] using contains_addClass_self EXCLUSION_CLASS d.classes

theorem scanTextStep_inv {s : ContentState} {e : Elem}
    (hInv : ScanInv s) (hkind : e.kind = EKind.text)
    (hsig : (e.id, e.kind) ∈ domSig s.dom) :
    ScanInv (scanTextStep s e) ∧ domSig (scanTextStep s e).dom = domSig s.dom := by
  unfold scanTextStep
  split
  · exact ⟨hInv, rfl⟩
  split
  · exact ⟨hInv, rfl⟩
  rename_i hne hmem
  have hkOf : kindOf s.dom e.id = some EKind.text :=
    hkind ▸ kindOf_of_mem_sig hInv.domNodup hsig
  have hnotin : e.id ∉ s.enqueueLog.map Prod.snd := by
    intro hin
    obtain ⟨p, hp, hpe⟩ := List.mem_map.mp hin
    have hp' : p = (p.1, e.id) := by rw [← hpe]
    cases hk : p.1 with
    | text =>
      have := (hInv.logText e.id (by rw [hp', hk] at hp; exact hp)).1
      exact hmem (by simpa using this)
    | image =>
      have := (hInv.logImage e.id (by rw [hp', hk] at hp; exact hp)).2
      rw [hkOf] at this
      cases this
  refine ⟨⟨?_, ?_, ?_, ?_, ?_⟩, domSig_domAddClass s.dom e.id EXCLUSION_CLASS⟩
  · rw [ids_eq_of_sig (domSig_domAddClass s.dom e.id EXCLUSION_CLASS)]
    exact hInv.domNodup
  · simp only [List.map_append, List.map_cons, List.map_nil]
    exact List.Nodup.append hInv.logNodup (List.nodup_singleton _)
      (by simpa [List.disjoint_singleton] using hnotin)
  · intro i hi
    rw [List.mem_append] at hi
    rcases hi with hi | hi
    · obtain ⟨h1, h2⟩ := hInv.logText i hi
      refine ⟨List.mem_append_left _ h1, ?_⟩
      rw [kindOf_congr (domSig_domAddClass s.dom e.id EXCLUSION_CLASS) i]
      exact h2
    · simp only [List.mem_singleton, Prod.mk.injEq] at hi
      refine ⟨List.mem_append_right _ (by simp [hi.2]), ?_⟩
      rw [kindOf_congr (domSig_domAddClass s.dom e.id EXCLUSION_CLASS) i, hi.2]
      exact hkOf
  · intro i hi
    rw [List.mem_append] at hi
    rcases hi with hi | hi
    · obtain ⟨h1, h2⟩ := hInv.logImage i hi
      refine ⟨h1, ?_⟩
      rw [kindOf_congr (domSig_domAddClass s.dom e.id EXCLUSION_CLASS) i]
      exact h2
    · simp at hi
  · intro p hp
    rw [List.mem_append] at hp
    rcases hp with hp | hp
    · exact domHasExclusion_domAddClass_of (hInv.logClass p hp)
    · simp only [List.mem_singleton] at hp
      rw [hp]
      exact domHasExclusion_domAddClass_self (exists_of_mem_sig hsig)

theorem scanImageStep_inv {s : ContentState} {e : Elem}
    (hInv : ScanInv s) (hkind : e.kind = EKind.image)
    (hsig : (e.id, e.kind) ∈ domSig s.dom) :
    ScanInv (scanImageStep s e) ∧ domSig (scanImageStep s e).dom = domSig s.dom := by
  unfold scanImageStep
  split
  · exact ⟨hInv, rfl⟩
  split
  · exact ⟨hInv, rfl⟩
  rename_i hne hmem
  have hkOf : kindOf s.dom e.id = some EKind.image :=
    hkind ▸ kindOf_of_mem_sig hInv.domNodup hsig
  have hnotin : e.id ∉ s.enqueueLog.map Prod.snd := by
    intro hin
    obtain ⟨p, hp, hpe⟩ := List.mem_map.mp hin
    have hp' : p = (p.1, e.id) := by rw [← hpe]
    cases hk : p.1 with
    | image =>
      have := (hInv.logImage e.id (by rw [hp', hk] at hp; exact hp)).1
      exact hmem (by simpa using this)
    | text =>
      have := (hInv.logText e.id (by rw [hp', hk] at hp; exact hp)).2
      rw [hkOf] at this
      cases this
  refine ⟨⟨?_, ?_, ?_, ?_, ?_⟩, domSig_domAddClass s.dom e.id EXCLUSION_CLASS⟩
  · rw [ids_eq_of_sig (domSig_domAddClass s.dom e.id EXCLUSION_CLASS)]
    exact hInv.domNodup
  · simp only [List.map_append, List.map_cons, List.map_nil]
    exact List.Nodup.append hInv.logNodup (List.nodup_singleton _)
      (by simpa [List.disjoint_singleton] using hnotin)
  · intro i hi
    rw [List.mem_append] at hi
    rcases hi with hi | hi
    · obtain ⟨h1, h2⟩ := hInv.logText i hi
      refine ⟨h1, ?_⟩
      rw [kindOf_congr (domSig_domAddClass s.dom e.id EXCLUSION_CLASS) i]
      exact h2
    · simp at hi
  · intro i hi
    rw [List.mem_append] at hi
    rcases hi with hi | hi
    · obtain ⟨h1, h2⟩ := hInv.logImage i hi
      refine ⟨List.mem_append_left _ h1, ?_⟩
      rw [kindOf_congr (domSig_domAddClass s.dom e.id EXCLUSION_CLASS) i]
      exact h2
    · simp only [List.mem_singleton, Prod.mk.injEq] at hi
      refine ⟨List.mem_append_right _ (by simp [hi.2]), ?_⟩
      rw [kindOf_congr (domSig_domAddClass s.dom e.id EXCLUSION_CLASS) i, hi.2]
      exact hkOf
  · intro p hp
    rw [List.mem_append] at hp
    rcases hp with hp | hp
    · exact domHasExclusion_domAddClass_of (hInv.logClass p hp)
    · simp only [List.mem_singleton] at hp
      rw [hp]
      exact domHasExclusion_domAddClass_self (exists_of_mem_sig hsig)

theorem scanTextFold_inv (l : List Elem) (s : ContentState)
    (hInv : ScanInv s)
    (hl : ∀ e ∈ l, e.kind = EKind.text ∧ (e.id, e.kind) ∈ domSig s.dom) :
    ScanInv (l.foldl scanTextStep s)
      ∧ domSig (l.foldl scanTextStep s).dom = domSig s.dom := by
  induction l generalizing s with
  | nil => exact ⟨hInv, rfl⟩
  | cons e rest ih =>
    obtain ⟨hk, hs⟩ := hl e (List.mem_cons_self e rest)
    obtain ⟨hInv', hsig'⟩ := scanTextStep_inv hInv hk hs
    obtain ⟨hI, hS⟩ := ih (scanTextStep s e) hInv' fun x hx =>
      ⟨(hl x (List.mem_cons_of_mem e hx)).1,
       hsig' ▸ (hl x (List.mem_cons_of_mem e hx)).2⟩
    exact ⟨hI, by rw [List.foldl_cons, hS, hsig']⟩

theorem scanImageFold_inv (l : List Elem) (s : ContentState)
    (hInv : ScanInv s)
    (hl : ∀ e ∈ l, e.kind = EKind.image ∧ (e.id, e.kind) ∈ domSig s.dom) :
    ScanInv (l.foldl scanImageStep s)
      ∧ domSig (l.foldl scanImageStep s).dom = domSig s.dom := by
  induction l generalizing s with
  | nil => exact ⟨hInv, rfl⟩
  | cons e rest ih =>
    obtain ⟨hk, hs⟩ := hl e (List.mem_cons_self e rest)
    obtain ⟨hInv', hsig'⟩ := scanImageStep_inv hInv hk hs
    obtain ⟨hI, hS⟩ := ih (scanImageStep s e) hInv' fun x hx =>
      ⟨(hl x (List.mem_cons_of_mem e hx)).1,
       hsig' ▸ (hl x (List.mem_cons_of_mem e hx)).2⟩
    exact ⟨hI, by rw [List.foldl_cons, hS, hsig']⟩

theorem textCandidates_spec {dom : List Elem} {e : Elem}
    (h : e ∈ textCandidates dom) :
    e ∈ dom ∧ e.kind = EKind.text ∧ (e.id, e.kind) ∈ domSig dom := by
  obtain ⟨hm, hp⟩ := List.mem_filter.mp h
  simp only [Bool.and_eq_true, decide_eq_true_eq] at hp
  exact ⟨hm, hp.1, mem_sig_of_mem hm⟩

theorem imageCandidates_spec {dom : List Elem} {e : Elem}
    (h : e ∈ imageCandidates dom) :
    e ∈ dom ∧ e.kind = EKind.image ∧ (e.id, e.kind) ∈ domSig dom := by
  obtain ⟨hm, hp⟩ := List.mem_filter.mp h
  simp only [Bool.and_eq_true, decide_eq_true_eq] at hp
  exact ⟨hm, hp.1, mem_sig_of_mem hm⟩

theorem processNextBatchC_inv {s : ContentState} (hInv : ScanInv s) :
    ScanInv (processNextBatchC s)
      ∧ (processNextBatchC s).dom = s.dom
      ∧ (processNextBatchC s).enqueueLog = s.enqueueLog := by
  unfold processNextBatchC
  split
  · exact ⟨hInv, rfl, rfl⟩
  · exact ⟨⟨hInv.domNodup, hInv.logNodup, hInv.logText, hInv.logImage,
      hInv.logClass⟩, rfl, rfl⟩

theorem scan_inv {s : ContentState} (hInv : ScanInv s) :
    ScanInv (scanContentForModeration s)
      ∧ domSig (scanContentForModeration s).dom = domSig s.dom := by
  unfold scanContentForModeration
  split
  · exact ⟨hInv, rfl⟩
  obtain ⟨hI1, hS1⟩ := scanTextFold_inv (textCandidates s.dom) s hInv fun e he =>
    ⟨(textCandidates_spec he).2.1, (textCandidates_spec he).2.2⟩
  obtain ⟨hI2, hS2⟩ := scanImageFold_inv
    (imageCandidates ((textCandidates s.dom).foldl scanTextStep s).dom)
    ((textCandidates s.dom).foldl scanTextStep s) hI1 fun e he =>
    ⟨(imageCandidates_spec he).2.1, (imageCandidates_spec he).2.2⟩
  dsimp only
  split
  · obtain ⟨hI3, hD3, _⟩ := processNextBatchC_inv hI2
    exact ⟨hI3, by rw [hD3, hS2, hS1]⟩
  · exact ⟨hI2, by rw [hS2, hS1]⟩

theorem batchEndC_inv {s : ContentState} (hInv : ScanInv s) :
    ScanInv (batchEndC s) :=
  ⟨hInv.domNodup, hInv.logNodup, hInv.logText, hInv.logImage, hInv.logClass⟩

theorem domSetText_inv {s : ContentState} (i : Nat) (t : String)
    (hInv : ScanInv s) : ScanInv (domSetText s i t) := by
  have hsig : domSig (domSetText s i t).dom = domSig s.dom :=
    domSig_map s.dom _ fun e => by split <;> simp
  refine ⟨?_, hInv.logNodup, ?_, ?_, ?_⟩
  · rw [ids_eq_of_sig hsig]
    exact hInv.domNodup
  · intro j hj
    obtain ⟨h1, h2⟩ := hInv.logText j hj
    exact ⟨h1, by rw [kindOf_congr hsig]; exact h2⟩
  · intro j hj
    obtain ⟨h1, h2⟩ := hInv.logImage j hj
    exact ⟨h1, by rw [kindOf_congr hsig]; exact h2⟩
  · intro p hp
    exact domHasExclusion_map s.dom _ p.2 (fun e => by split <;> simp)
      (fun e hc => by split <;> simpa) (hInv.logClass p hp)

theorem kindOf_append_left {dom es : List Elem} {i : Nat} {k : EKind}
    (h : kindOf dom i = some k) : kindOf (dom ++ es) i = some k := by
  unfold kindOf at h ⊢
  rw [List.find?_append]
  obtain ⟨d, hd⟩ := Option.map_eq_some'.mp h
  rw [hd.1]
  simpa using hd.2

theorem addElems_inv {s : ContentState} {es : List Elem}
    (hf : freshFor s es) (hInv : ScanInv s) :
    ScanInv { s with dom := s.dom ++ es } := by
  refine ⟨?_, hInv.logNodup, ?_, ?_, ?_⟩
  · rw [List.map_append]
    exact List.Nodup.append hInv.domNodup hf.1 fun a ha hb => by
      obtain ⟨d, hd, hdi⟩ := List.mem_map.mp ha
      obtain ⟨e, he, hei⟩ := List.mem_map.mp hb
      exact hf.2 e he d hd (by rw [hdi, hei])
  · intro j hj
    obtain ⟨h1, h2⟩ := hInv.logText j hj
    exact ⟨h1, kindOf_append_left h2⟩
  · intro j hj
    obtain ⟨h1, h2⟩ := hInv.logImage j hj
    exact ⟨h1, kindOf_append_left h2⟩
  · intro p hp
    obtain ⟨e, he, hei, hec⟩ := hInv.logClass p hp
    exact ⟨e, List.mem_append_left es he, hei, hec⟩

/-- The scanner invariant holds in every reachable state. -/
theorem reaches_inv {s0 s : ContentState} (hInv : ScanInv s0)
    (h : Reaches s0 s) : ScanInv s := by
  induction h with
  | refl => exact hInv
  | scan _ ih => exact (scan_inv ih).1
  | batchStart _ ih => exact (processNextBatchC_inv ih).1
  | batchEnd _ ih => exact batchEndC_inv ih
  | setText i txt _ ih => exact domSetText_inv i txt ih
  | addElems es hf _ ih => exact addElems_inv hf ih

/-! ### Provenance of enqueued items -/

theorem scanTextStep_log {s : ContentState} {e : Elem} {p : EKind × Nat}
    (hp : p ∈ (scanTextStep s e).enqueueLog) :
    p ∈ s.enqueueLog ∨ (p = (EKind.text, e.id) ∧ jsTrim e.textContent ≠ ""
      ∧ e.id ∉ s.textElementsProcessed) := by
  unfold scanTextStep at hp
  split at hp
  · exact Or.inl hp
  split at hp
  · exact Or.inl hp
  rename_i h1 h2
  rw [List.mem_append] at hp
  rcases hp with hp | hp
  · exact Or.inl hp
  · rw [List.mem_singleton] at hp
    exact Or.inr ⟨hp, h1, by simpa using h2⟩

theorem scanImageStep_log {s : ContentState} {e : Elem} {p : EKind × Nat}
    (hp : p ∈ (scanImageStep s e).enqueueLog) :
    p ∈ s.enqueueLog ∨ (p = (EKind.image, e.id) ∧ e.src ≠ ""
      ∧ e.id ∉ s.imageElementsProcessed) := by
  unfold scanImageStep at hp
  split at hp
  · exact Or.inl hp
  split at hp
  · exact Or.inl hp
  rename_i h1 h2
  rw [List.mem_append] at hp
  rcases hp with hp | hp
  · exact Or.inl hp
  · rw [List.mem_singleton] at hp
    exact Or.inr ⟨hp, h1, by simpa using h2⟩

theorem scanTextFold_log (l : List Elem) (s : ContentState) (p : EKind × Nat)
    (hp : p ∈ (l.foldl scanTextStep s).enqueueLog) :
    p ∈ s.enqueueLog ∨ ∃ e ∈ l, p = (EKind.text, e.id) ∧ jsTrim e.textContent ≠ "" := by
  induction l generalizing s with
  | nil => exact Or.inl hp
  | cons e rest ih =>
    rw [List.foldl_cons] at hp
    rcases ih (scanTextStep s e) hp with h | ⟨e', he', hpe⟩
    · rcases scanTextStep_log h with h | h
      · exact Or.inl h
      · exact Or.inr ⟨e, List.mem_cons_self e rest, h.1, h.2.1⟩
    · exact Or.inr ⟨e', List.mem_cons_of_mem e he', hpe⟩

theorem scanImageFold_log (l : List Elem) (s : ContentState) (p : EKind × Nat)
    (hp : p ∈ (l.foldl scanImageStep s).enqueueLog) :
    p ∈ s.enqueueLog ∨ ∃ e ∈ l, p = (EKind.image, e.id) ∧ e.src ≠ "" := by
  induction l generalizing s with
  | nil => exact Or.inl hp
  | cons e rest ih =>
    rw [List.foldl_cons] at hp
    rcases ih (scanImageStep s e) hp with h | ⟨e', he', hpe⟩
    · rcases scanImageStep_log h with h | h
      · exact Or.inl h
      · exact Or.inr ⟨e, List.mem_cons_self e rest, h.1, h.2.1⟩
    · exact Or.inr ⟨e', List.mem_cons_of_mem e he', hpe⟩

theorem scanTextStep_csig (s : ContentState) (e : Elem) :
    domCSig (scanTextStep s e).dom = domCSig s.dom := by
  unfold scanTextStep
  split
  · rfl
  split
  · rfl
  · exact domCSig_domAddClass s.dom e.id EXCLUSION_CLASS

theorem scanTextFold_csig (l : List Elem) (s : ContentState) :
    domCSig (l.foldl scanTextStep s).dom = domCSig s.dom := by
  induction l generalizing s with
  | nil => rfl
  | cons e rest ih =>
    rw [List.foldl_cons, ih (scanTextStep s e), scanTextStep_csig]

theorem exists_of_mem_csig {dom : List Elem} {i : Nat} {k : EKind} {t u : String}
    (h : (i, k, t, u) ∈ domCSig dom) :
    ∃ d ∈ dom, d.id = i ∧ d.kind = k ∧ d.textContent = t ∧ d.src = u := by
  obtain ⟨d, hd, he⟩ := List.mem_map.mp h
  refine ⟨d, hd, ?_, ?_, ?_, ?_⟩
  · simpa using congrArg Prod.fst he
  · simpa using congrArg (fun q => q.2.1) he
  · simpa using congrArg (fun q => q.2.2.1) he
  · simpa using congrArg (fun q => q.2.2.2) he

theorem mem_csig_of_mem {dom : List Elem} {e : Elem} (h : e ∈ dom) :
    (e.id, e.kind, e.textContent, e.src) ∈ domCSig dom :=
  List.mem_map_of_mem _ h

theorem processNextBatchC_log (s : ContentState) :
    (processNextBatchC s).enqueueLog = s.enqueueLog := by
  unfold processNextBatchC
  split <;> rfl

/-- Every item a scan newly enqueues comes from an element of the scanned
DOM of the matching kind with non-empty trimmed text (text) or a non-empty
source (image). -/
theorem scan_log_src {s : ContentState} {p : EKind × Nat}
    (hp : p ∈ (scanContentForModeration s).enqueueLog) :
    p ∈ s.enqueueLog
    ∨ (∃ e ∈ s.dom, p = (EKind.text, e.id) ∧ e.kind = EKind.text
        ∧ jsTrim e.textContent ≠ "")
    ∨ (∃ e ∈ s.dom, p = (EKind.image, e.id) ∧ e.kind = EKind.image
        ∧ e.src ≠ "") := by
  unfold scanContentForModeration at hp
  split at hp
  · exact Or.inl hp
  dsimp only at hp
  have hp2 : p ∈ ((imageCandidates ((textCandidates s.dom).foldl scanTextStep s).dom).foldl
      scanImageStep ((textCandidates s.dom).foldl scanTextStep s)).enqueueLog := by
    split at hp
    · rw [processNextBatchC_log] at hp
      exact hp
    · exact hp
  rcases scanImageFold_log _ _ p hp2 with h2 | ⟨e', he', hpe, hsrc⟩
  · rcases scanTextFold_log _ _ p h2 with h1 | ⟨e', he', hpe, htx⟩
    · exact Or.inl h1
    · obtain ⟨hmem, hk, _⟩ := textCandidates_spec he'
      exact Or.inr (Or.inl ⟨e', hmem, hpe, hk, htx⟩)
  · obtain ⟨hmem1, hk, _⟩ := imageCandidates_spec he'
    have hcs : (e'.id, e'.kind, e'.textContent, e'.src)
        ∈ domCSig s.dom := by
      rw [← scanTextFold_csig (textCandidates s.dom) s]
      exact mem_csig_of_mem hmem1
    obtain ⟨d, hd, hdi, hdk, hdt, hds⟩ := exists_of_mem_csig hcs
    refine Or.inr (Or.inr ⟨d, hd, ?_, ?_, ?_⟩)
    · rw [hpe, hdi]
    · rw [hdk, hk]
    · rw [hds]; exact hsrc

/-- C3: Scanner exactly-once enqueue — across any reachable execution (any
number of scans, batch dequeues, character-data mutations and fresh node
insertions) no element handle is ever pushed onto the processing queue
twice; every enqueued handle is already in the matching processed set and
carries the processed marker class (both set synchronously at enqueue
time); and a scan never newly enqueues a text element whose trimmed content
is empty at scan time, nor an image without a source. -/
theorem scannerExactlyOnceEnqueue (s0 s : ContentState)
    (hInv : ScanInv s0) (hR : Reaches s0 s) :
    (s.enqueueLog.map Prod.snd).Nodup
    ∧ (∀ p ∈ s.enqueueLog,
        (p.1 = EKind.text → p.2 ∈ s.textElementsProcessed)
        ∧ (p.1 = EKind.image → p.2 ∈ s.imageElementsProcessed)
        ∧ domHasExclusion s.dom p.2)
    ∧ (∀ e ∈ s.dom, e.kind = EKind.text → jsTrim e.textContent = "" →
        (EKind.text, e.id) ∈ (scanContentForModeration s).enqueueLog →
        (EKind.text, e.id) ∈ s.enqueueLog)
    ∧ (∀ e ∈ s.dom, e.kind = EKind.image → e.src = "" →
        (EKind.image, e.id) ∈ (scanContentForModeration s).enqueueLog →
        (EKind.image, e.id) ∈ s.enqueueLog) := by
  have hI := reaches_inv hInv hR
  refine ⟨hI.logNodup, ?_, ?_, ?_⟩
  · rintro ⟨k, i⟩ hp
    refine ⟨fun h1 => ?_, fun h2 => ?_, hI.logClass _ hp⟩
    · subst h1
      exact (hI.logText i hp).1
    · subst h2
      exact (hI.logImage i hp).1
  · intro e he hk ht hmem
    rcases scan_log_src hmem with h | ⟨e', he', hpe, hk', htx⟩ | ⟨e', he', hpe, hk', hsrc⟩
    · exact h
    · have hid : e.id = e'.id := by simpa using congrArg Prod.snd hpe
      have heq : e = e' := List.inj_on_of_nodup_map hI.domNodup he he' hid
      rw [heq] at ht
      exact absurd ht htx
    · exact absurd (by simpa using congrArg Prod.fst hpe) (by decide : ¬ EKind.text = EKind.image)
  · intro e he hk hs hmem
    rcases scan_log_src hmem with h | ⟨e', he', hpe, hk', htx⟩ | ⟨e', he', hpe, hk', hsrc⟩
    · exact h
    · exact absurd (by simpa using congrArg Prod.fst hpe) (by decide : ¬ EKind.image = EKind.text)
    · have hid : e.id = e'.id := by simpa using congrArg Prod.snd hpe
      have heq : e = e' := List.inj_on_of_nodup_map hI.domNodup he he' hid
      rw [heq] at hs
      exact absurd hs hsrc

/-- The initial global state of content.js on a fresh page with `dom` as
the document body. -/
def initialContentState (dom : List Elem) : ContentState :=
  { isEnabled := true, currentlyProcessing := false, processingQueue := [],
    textElementsProcessed := [], imageElementsProcessed := [],
    encryptedElements := [], dom := dom, indicators := 0, overlays := 0,
    blockedNotices := 0, storage := ⟨0, 0, []⟩, enqueueLog := [] }

/-- Witness for C3: one scan of a one-element page. -/
theorem scannerExactlyOnceEnqueueWitness :
    ((scanContentForModeration (initialContentState [sampleTextElem])).enqueueLog.map
      Prod.snd).Nodup :=
  (scannerExactlyOnceEnqueue (initialContentState [sampleTextElem]) _
    ⟨by simp [initialContentState], by simp [initialContentState],
     by simp [initialContentState], by simp [initialContentState],
     by simp [initialContentState]⟩
    (Reaches.scan (Reaches.refl _))).1

/-! ## C4: batch scheduler (processNextBatch of content.js)

The scheduler's asynchronous cycle as a step relation: the synchronous
entry of `processNextBatch`, the independent settlement of each dispatched
item, and the `Promise.allSettled` callback, which by the semantics of
`allSettled` fires only once every outcome of the batch is known. -/

/-- How one item of a batch settles in `Promise.allSettled`'s result. -/
inductive Settled where
  | fulfilled
  | rejected
deriving DecidableEq, Repr

/-- Scheduler state: content.js's `currentlyProcessing`, `isEnabled` and
`processingQueue`, plus the in-flight batch and the settlement status of
each of its dispatched promises (`none` = still pending). -/
structure SchedState where
  currentlyProcessing : Bool
  isEnabled : Bool
  processingQueue : List (EKind × Nat)
  batch : List (EKind × Nat)
  outcomes : List (Option Settled)
deriving DecidableEq, Repr

/-- The synchronous entry of `processNextBatch`: a no-op while a batch is
processing, on an empty queue, or when protection is disabled; otherwise it
flips to Processing and splices up to `BATCH_SIZE` items off the head of
the queue, dispatching all of them. -/
def schedInvoke (s : SchedState) : SchedState :=
  if s.currentlyProcessing || s.processingQueue.isEmpty || !s.isEnabled then s
  else
    { s with
      currentlyProcessing := true,
      batch := s.processingQueue.take BATCH_SIZE,
      processingQueue := s.processingQueue.drop BATCH_SIZE,
      outcomes := List.replicate (s.processingQueue.take BATCH_SIZE).length none }

/-- One asynchronous transition of the scheduler. -/
inductive SchedStep : SchedState → SchedState → Prop
  | invoke (s : SchedState) : SchedStep s (schedInvoke s)
  | settle (s : SchedState) (i : Nat) (r : Settled) (h : s.outcomes[i]? = some none) :
      SchedStep s { s with outcomes := s.outcomes.set i (some r) }
  | allSettled (s : SchedState) (h : ∀ o ∈ s.outcomes, o.isSome)
      (hp : s.currentlyProcessing = true) :
      SchedStep s { s with currentlyProcessing := false }

/-- C4: Batch scheduler exclusivity — invoking the scheduler while a batch
is processing, while the queue is empty, or while protection is disabled is
a no-op; otherwise it dequeues up to BATCH_SIZE items FIFO from the head;
the Processing flag only ever returns to Idle through the all-settled
callback, i.e. after every outcome of the current batch is known; and one
item settling (in particular rejecting) never changes the queue, the batch,
the Processing flag, or any sibling's outcome. -/
theorem batchSchedulerExclusivity (s t : SchedState) (i : Nat) (r : Settled)
    (hio : t.outcomes[i]? = some none) :
    (s.currentlyProcessing = true → schedInvoke s = s)
    ∧ (s.processingQueue = [] → schedInvoke s = s)
    ∧ (s.isEnabled = false → schedInvoke s = s)
    ∧ (s.currentlyProcessing = false → s.isEnabled = true → s.processingQueue ≠ [] →
        (schedInvoke s).batch = s.processingQueue.take BATCH_SIZE
        ∧ (schedInvoke s).processingQueue = s.processingQueue.drop BATCH_SIZE
        ∧ (schedInvoke s).currentlyProcessing = true)
    ∧ (∀ u v : SchedState, SchedStep u v → u.currentlyProcessing = true →
        v.currentlyProcessing = false → ∀ o ∈ u.outcomes, o.isSome)
    ∧ SchedStep t { t with outcomes := t.outcomes.set i (some r) }
      ∧ ({ t with outcomes := t.outcomes.set i (some r) } : SchedState).processingQueue
          = t.processingQueue
      ∧ ({ t with outcomes := t.outcomes.set i (some r) } : SchedState).batch = t.batch
      ∧ ({ t with outcomes := t.outcomes.set i (some r) } : SchedState).currentlyProcessing
          = t.currentlyProcessing
      ∧ ∀ j, j ≠ i →
          ({ t with outcomes := t.outcomes.set i (some r) } : SchedState).outcomes[j]?
            = t.outcomes[j]? := by
  refine ⟨?_, ?_, ?_, ?_, ?_, SchedStep.settle t i r hio, rfl, rfl, rfl, ?_⟩
  · intro h
    unfold schedInvoke
    rw [if_pos (by simp [h])]
  · intro h
    unfold schedInvoke
    rw [if_pos (by simp [h])]
  · intro h
    unfold schedInvoke
    rw [if_pos (by simp [h])]
  · intro h1 h2 h3
    unfold schedInvoke
    rw [if_neg (by simp [h1, h2, h3])]
    exact ⟨rfl, rfl, rfl⟩
  · intro u v hstep h1 h2
    cases hstep with
    | invoke =>
      unfold schedInvoke at h2
      rw [if_pos (by simp [h1])] at h2
      rw [h1] at h2
      cases h2
    | settle i r h =>
      rw [h1] at h2
      cases h2
    | allSettled h hp => exact h
  · intro j hj
    exact List.getElem?_set_ne (fun he => hj he.symm)

def schedBusy : SchedState :=
  { currentlyProcessing := true, isEnabled := true,
    processingQueue := [(EKind.text, 1)], batch := [(EKind.text, 0)],
    outcomes := [none] }

/-- Witness for C4: re-invoking the scheduler mid-batch is a no-op. -/
theorem batchSchedulerExclusivityWitness :
    schedInvoke schedBusy = schedBusy :=
  (batchSchedulerExclusivity schedBusy schedBusy 0 Settled.rejected (by decide)).1 rfl

/-! ## C7: recovery (applyRecoveredContent of content-new.js) -/

/-- The tag list of the `querySelectorAll` used to find legacy and
placeholder-bearing filtered elements. -/
def RESTORE_TAGS : List String :=
  ["p", "span", "div", "h1", "h2", "h3", "h4", "h5", "h6"]

/-- Legacy filtered element: matching tag whose trimmed text is non-empty
and all asterisks. -/
def legacyFiltered (e : Elem) : Bool :=
  decide (e.tag ∈ RESTORE_TAGS)
    && (let t := jsTrim e.textContent
        decide (jsLength t > 0) && t.toList.all (· = '*'))

/-- Element whose trimmed text contains the generic filtered-placeholder
string. -/
def messageFiltered (e : Elem) : Bool :=
  decide (e.tag ∈ RESTORE_TAGS)
    && jsIncludes (jsTrim e.textContent) "[Content filtered by Socio.io]"

/-- `applyRecoveredContent` of content-new.js: collect the filtered
candidates (modern class-tagged, legacy all-asterisk, generic placeholder,
in that order), restore the first one to the recovered text and clear its
marker, overwrite every still-encrypted element, and show an on-page
notification; when nothing matches, show a notification carrying the
recovered text itself.  (The geometric removal of indicator nodes near the
restored element and the clipboard fallback are outside the modelled
state.)  Returns the new DOM and the text of the notification shown. -/
def applyRecoveredContentNew (recoveredText : String) (dom : List Elem) :
    List Elem × String :=
  match (dom.filter fun e => hasClass e "socioio-filtered-text")
      ++ dom.filter legacyFiltered ++ dom.filter messageFiltered with
  | [] => (dom, recoveredText)
  | first :: _ =>
    let dom := dom.map fun e =>
      if e.id = first.id then
        { e with textContent := recoveredText,
                 classes := removeClass "socioio-filtered-text" e.classes }
      else e
    let dom := dom.map fun e =>
      if hasClass e "socioio-encrypted" then
        { e with textContent := recoveredText,
                 classes := removeClass "socioio-encrypted" e.classes }
      else e
    (dom, "Content restored successfully!")

theorem contains_removeClass_self (c : String) (cs : List String) :
    (removeClass c cs).contains c = false := by
  unfold removeClass
  simp

theorem contains_removeClass_ne {c c' : String} (h : c ≠ c') (cs : List String) :
    (removeClass c' cs).contains c = cs.contains c := by
  unfold removeClass
  by_cases hm : c ∈ cs <;> simp [hm, h]

/-- C7: Restore round-trip and recovery miss — when a matching redacted
element exists (first among class-tagged, legacy all-asterisk, and
placeholder-bearing elements), recovery sets that element's content to
exactly the recovered text and clears its filtered marker class; when none
exists, the recovered text is surfaced in the on-page notification rather
than dropped. -/
theorem restoreRoundTripAndMiss (T : String) (dom : List Elem) (first : Elem)
    (rest : List Elem)
    (hsplit : (dom.filter fun e => hasClass e "socioio-filtered-text")
        ++ dom.filter legacyFiltered ++ dom.filter messageFiltered = first :: rest) :
    (∃ e' ∈ (applyRecoveredContentNew T dom).1,
      e'.id = first.id ∧ e'.textContent = T
        ∧ hasClass e' "socioio-filtered-text" = false)
    ∧ (∀ (dom' : List Elem),
        ((dom'.filter fun e => hasClass e "socioio-filtered-text")
          ++ dom'.filter legacyFiltered ++ dom'.filter messageFiltered = []) →
        applyRecoveredContentNew T dom' = (dom', T)) := by
  constructor
  · have hfirst : first ∈ dom := by
      have hm : first ∈ (dom.filter fun e => hasClass e "socioio-filtered-text")
          ++ dom.filter legacyFiltered ++ dom.filter messageFiltered := by
        rw [hsplit]
        exact List.mem_cons_self first rest
      rcases List.mem_append.mp hm with hm | hm
      · rcases List.mem_append.mp hm with hm | hm
        · exact (List.mem_filter.mp hm).1
        · exact (List.mem_filter.mp hm).1
      · exact (List.mem_filter.mp hm).1
    unfold applyRecoveredContentNew
    rw [hsplit]
    dsimp only
    set g := fun e : Elem =>
      if e.id = first.id then
        { e with textContent := T,
                 classes := removeClass "socioio-filtered-text" e.classes }
      else e with hg
    set f := fun e : Elem =>
      if hasClass e "socioio-encrypted" then
        { e with textContent := T,
                 classes := removeClass "socioio-encrypted" e.classes }
      else e with hf
    refine ⟨f (g first), List.mem_map_of_mem f (List.mem_map_of_mem g hfirst), ?_, ?_, ?_⟩
    · rw [hf, hg]
      dsimp only
      rw [if_pos rfl]
      split <;> rfl
    · rw [hf, hg]
      dsimp only
      rw [if_pos rfl]
      split <;> rfl
    · rw [hf, hg]
      dsimp only
      rw [if_pos rfl]
      split
      · simp only [hasClass]
        rw [contains_removeClass_ne
          (by decide : "socioio-filtered-text" ≠ "socioio-encrypted"),
          contains_removeClass_self]
      · simp only [hasClass]
        rw [contains_removeClass_self]
  · intro dom' hempty
    unfold applyRecoveredContentNew
    rw [hempty]

def filteredElem : Elem :=
  { id := 5, kind := .text, tag := "p", isConnected := true,
    textContent := "[Content filtered by Socio.io]", src := "",
    classes := ["socioio-processed", "socioio-filtered-text"], blurred := false,
    naturalWidth := 0, naturalHeight := 0 }

/-- Witness for C7, restoring a concrete filtered paragraph. -/
theorem restoreRoundTripAndMissWitness :
    ∃ e' ∈ (applyRecoveredContentNew "original text" [filteredElem]).1,
      e'.id = filteredElem.id ∧ e'.textContent = "original text"
        ∧ hasClass e' "socioio-filtered-text" = false :=
  (restoreRoundTripAndMiss "original text" [filteredElem] filteredElem [filteredElem]
    (by decide)).1

/-! ## C8: bulk restore on disable (restoreOriginalContent of content.js) -/

/-- One iteration of the restore loop over `encryptedElements`: through the
stored handle, write back the original text and clear the encrypted marker,
provided the element is still connected. -/
def restoreElem (dom : List Elem) (i : Nat) (orig : String) : List Elem :=
  dom.map fun e =>
    if e.id = i then
      if e.isConnected then
        { e with textContent := orig,
                 classes := removeClass "socioio-encrypted" e.classes }
      else e
    else e

/-- `restoreOriginalContent` of content.js: restore every entry of
`encryptedElements` and clear the map; detach every block notice, image
overlay and indicator from the page; clear the blur filter of every blurred
image. -/
def restoreOriginalContent (s : ContentState) : ContentState :=
  let dom := s.encryptedElements.foldl (fun d p => restoreElem d p.1 p.2) s.dom
  let dom := dom.map fun e => if e.blurred then { e with blurred := false } else e
  { s with dom := dom, encryptedElements := [],
           indicators := 0, overlays := 0, blockedNotices := 0 }

/-- The `toggleProtection` message handler of content.js: set the flag,
then rescan (enabled) or restore (disabled). -/
def toggleProtection (enabled : Bool) (s : ContentState) : ContentState :=
  let s := { s with isEnabled := enabled }
  if enabled then scanContentForModeration s else restoreOriginalContent s

theorem restoreElem_ids (dom : List Elem) (i : Nat) (orig : String) :
    (restoreElem dom i orig).map Elem.id = dom.map Elem.id := by
  unfold restoreElem
  rw [List.map_map]
  refine List.map_congr_left fun e _ => ?_
  simp only [Function.comp_apply]
  split <;> (try split) <;> rfl

theorem mem_restoreElem_of_ne {dom : List Elem} {e : Elem} (he : e ∈ dom)
    {i : Nat} (hne : i ≠ e.id) (orig : String) : e ∈ restoreElem dom i orig := by
  unfold restoreElem
  refine List.mem_map.mpr ⟨e, he, ?_⟩
  have h : ¬ e.id = i := fun hx => hne hx.symm
  simp [h]

/-- An element whose handle is not a later key survives the rest of the
restore fold unchanged. -/
theorem restoreFold_skip (m : List (Nat × String)) (dom : List Elem) (e : Elem)
    (he : e ∈ dom) (hk : ∀ q ∈ m, q.1 ≠ e.id) :
    e ∈ m.foldl (fun d p => restoreElem d p.1 p.2) dom := by
  induction m generalizing dom with
  | nil => exact he
  | cons q rest ih =>
    rw [List.foldl_cons]
    exact ih (restoreElem dom q.1 q.2)
      (mem_restoreElem_of_ne he (hk q (List.mem_cons_self q rest)) q.2)
      fun r hr => hk r (List.mem_cons_of_mem q hr)

/-- The restore fold writes each stored original back through its handle. -/
theorem restoreFold_spec (m : List (Nat × String)) (dom : List Elem)
    (hnd : (dom.map Elem.id).Nodup) (hkeys : (m.map Prod.fst).Nodup) :
    ∀ i orig, (i, orig) ∈ m → ∀ e ∈ dom, e.id = i → e.isConnected = true →
      ∃ e' ∈ m.foldl (fun d p => restoreElem d p.1 p.2) dom,
        e'.id = i ∧ e'.textContent = orig
          ∧ hasClass e' "socioio-encrypted" = false := by
  induction m generalizing dom with
  | nil =>
    intro i orig him
    cases him
  | cons q rest ih =>
    intro i orig him e he hei hec
    rw [List.map_cons, List.nodup_cons] at hkeys
    rw [List.foldl_cons]
    rcases List.mem_cons.mp him with him | him
    · -- this entry restores e; every later key is different
      have hq1 : q.1 = i := by simpa using congrArg Prod.fst him.symm
      have hq2 : q.2 = orig := by simpa using congrArg Prod.snd him.symm
      refine ⟨{ e with textContent := q.2, classes := removeClass "socioio-encrypted" e.classes }, restoreFold_skip rest (restoreElem dom q.1 q.2) _ ?_ ?_, hei, hq2, ?_⟩
      · unfold restoreElem
        refine List.mem_map.mpr ⟨e, he, ?_⟩
        have h : e.id = q.1 := by rw [hei, hq1]
        simp [h, hec]
      · intro r hr hre
        have hri : r.1 = i := by simpa [hei] using hre
        exact hkeys.1 (hq1 ▸ hri ▸ List.mem_map_of_mem Prod.fst hr)
      · simp only [hasClass]
        rw [contains_removeClass_self]
    · -- the entry is further down; this step does not move e
      have hqe : q.1 ≠ i := fun hq => hkeys.1 (hq ▸ List.mem_map_of_mem Prod.fst him)
      exact ih (restoreElem dom q.1 q.2)
        (by rw [restoreElem_ids]; exact hnd) hkeys.2 i orig him e
        (mem_restoreElem_of_ne he (by rw [hei]; exact hqe) q.2) hei hec

/-- C8: Bulk restore on disable — toggling protection off restores every
still-connected Encrypt-tagged element to the original text stored for its
handle in `encryptedElements` and clears the map; every blur filter is
removed and every image overlay, block notice and indicator is detached;
and the persisted storage (in particular `filterHistory`) is untouched.
The hypothesis `htag` is the pipeline invariant that every Encrypt tag was
put there together with a map entry (content.js sets both in the same
branch). -/
theorem bulkRestoreOnDisable (s : ContentState)
    (hnd : (s.dom.map Elem.id).Nodup)
    (hkeys : (s.encryptedElements.map Prod.fst).Nodup)
    (htag : ∀ e ∈ s.dom, hasClass e "socioio-encrypted" = true →
      e.isConnected = true → ∃ orig, (e.id, orig) ∈ s.encryptedElements) :
    (∀ e ∈ s.dom, hasClass e "socioio-encrypted" = true → e.isConnected = true →
      ∃ orig, (e.id, orig) ∈ s.encryptedElements
        ∧ ∃ e' ∈ (restoreOriginalContent s).dom, e'.id = e.id
            ∧ e'.textContent = orig ∧ hasClass e' "socioio-encrypted" = false)
    ∧ (restoreOriginalContent s).encryptedElements = []
    ∧ (∀ e' ∈ (restoreOriginalContent s).dom, e'.blurred = false)
    ∧ (restoreOriginalContent s).overlays = 0
    ∧ (restoreOriginalContent s).blockedNotices = 0
    ∧ (restoreOriginalContent s).indicators = 0
    ∧ (restoreOriginalContent s).storage = s.storage := by
  refine ⟨?_, rfl, ?_, rfl, rfl, rfl, rfl⟩
  · intro e he htagged hconn
    obtain ⟨orig, hm⟩ := htag e he htagged hconn
    obtain ⟨e2, hmem, hid, htext, hcls⟩ :=
      restoreFold_spec s.encryptedElements s.dom hnd hkeys e.id orig hm e he rfl hconn
    refine ⟨orig, hm, ?_⟩
    refine ⟨(fun x : Elem => if x.blurred then { x with blurred := false } else x) e2,
      List.mem_map_of_mem _ hmem, ?_, ?_, ?_⟩
    · show (if e2.blurred then { e2 with blurred := false } else e2).id = e.id
      split <;> exact hid
    · show (if e2.blurred then { e2 with blurred := false } else e2).textContent = orig
      split <;> exact htext
    · show hasClass (if e2.blurred then { e2 with blurred := false } else e2)
        "socioio-encrypted" = false
      split <;> exact hcls
  · intro e' hmem
    have hmem' : e' ∈ (s.encryptedElements.foldl
        (fun d p => restoreElem d p.1 p.2) s.dom).map
        (fun x : Elem => if x.blurred then { x with blurred := false } else x) := hmem
    obtain ⟨x, hx, he⟩ := List.mem_map.mp hmem'
    rw [← he]
    by_cases hb : x.blurred
    · simp [hb]
    · show (if x.blurred then { x with blurred := false } else x).blurred = false
      rw [if_neg (by simp [hb])]
      simpa using hb

/-- A page with one connected encrypted paragraph whose original text is in
the map. -/
def encryptedPageState : ContentState :=
  { isEnabled := true, currentlyProcessing := false, processingQueue := [],
    textElementsProcessed := [7], imageElementsProcessed := [],
    encryptedElements := [(7, "secret original")],
    dom := [{ id := 7, kind := .text, tag := "p", isConnected := true,
              textContent := "ENCRYPTED", src := "",
              classes := ["socioio-processed", "socioio-encrypted"],
              blurred := false, naturalWidth := 0, naturalHeight := 0 }],
    indicators := 2, overlays := 1, blockedNotices := 1,
    storage := ⟨3, 4, []⟩, enqueueLog := [(EKind.text, 7)] }

/-- Witness for C8 on a concrete encrypted page. -/
theorem bulkRestoreOnDisableWitness :
    (restoreOriginalContent encryptedPageState).encryptedElements = []
      ∧ (restoreOriginalContent encryptedPageState).storage
          = encryptedPageState.storage :=
  ⟨(bulkRestoreOnDisable encryptedPageState (by decide) (by decide)
      (by intro e he h1 h2; exact ⟨"secret original", by
        simp [encryptedPageState] at he
        simp [encryptedPageState, he]⟩)).2.1,
   (bulkRestoreOnDisable encryptedPageState (by decide) (by decide)
      (by intro e he h1 h2; exact ⟨"secret original", by
        simp [encryptedPageState] at he
        simp [encryptedPageState, he]⟩)).2.2.2.2.2.2⟩

/-! ## C10: disable then re-enable does not reprocess -/

theorem scanTextStep_sets (s : ContentState) (e : Elem) :
    (∀ i ∈ s.textElementsProcessed, i ∈ (scanTextStep s e).textElementsProcessed)
    ∧ (scanTextStep s e).imageElementsProcessed = s.imageElementsProcessed := by
  unfold scanTextStep
  split
  · exact ⟨fun i h => h, rfl⟩
  split
  · exact ⟨fun i h => h, rfl⟩
  · exact ⟨fun i h => List.mem_append_left _ h, rfl⟩

theorem scanImageStep_sets (s : ContentState) (e : Elem) :
    (∀ i ∈ s.imageElementsProcessed, i ∈ (scanImageStep s e).imageElementsProcessed)
    ∧ (scanImageStep s e).textElementsProcessed = s.textElementsProcessed := by
  unfold scanImageStep
  split
  · exact ⟨fun i h => h, rfl⟩
  split
  · exact ⟨fun i h => h, rfl⟩
  · exact ⟨fun i h => List.mem_append_left _ h, rfl⟩

theorem scanTextFold_imageSet (l : List Elem) (s : ContentState) :
    (l.foldl scanTextStep s).imageElementsProcessed = s.imageElementsProcessed := by
  induction l generalizing s with
  | nil => rfl
  | cons e rest ih =>
    rw [List.foldl_cons, ih (scanTextStep s e), (scanTextStep_sets s e).2]

/-- Every item the text pass newly enqueues is a text item whose handle was
not yet in the processed set when the pass started. -/
theorem scanTextFold_new (l : List Elem) (s : ContentState) (p : EKind × Nat)
    (hp : p ∈ (l.foldl scanTextStep s).enqueueLog) (hnew : p ∉ s.enqueueLog) :
    p.1 = EKind.text ∧ p.2 ∉ s.textElementsProcessed := by
  induction l generalizing s with
  | nil => exact absurd hp hnew
  | cons e rest ih =>
    rw [List.foldl_cons] at hp
    by_cases hm : p ∈ (scanTextStep s e).enqueueLog
    · rcases scanTextStep_log hm with h | ⟨hpe, _, hset⟩
      · exact absurd h hnew
      · constructor
        · rw [hpe]
        · rw [hpe]
          exact hset
    · obtain ⟨h1, h2⟩ := ih (scanTextStep s e) hp hm
      exact ⟨h1, fun hin => h2 ((scanTextStep_sets s e).1 p.2 hin)⟩

theorem scanImageFold_new (l : List Elem) (s : ContentState) (p : EKind × Nat)
    (hp : p ∈ (l.foldl scanImageStep s).enqueueLog) (hnew : p ∉ s.enqueueLog) :
    p.1 = EKind.image ∧ p.2 ∉ s.imageElementsProcessed := by
  induction l generalizing s with
  | nil => exact absurd hp hnew
  | cons e rest ih =>
    rw [List.foldl_cons] at hp
    by_cases hm : p ∈ (scanImageStep s e).enqueueLog
    · rcases scanImageStep_log hm with h | ⟨hpe, _, hset⟩
      · exact absurd h hnew
      · constructor
        · rw [hpe]
        · rw [hpe]
          exact hset
    · obtain ⟨h1, h2⟩ := ih (scanImageStep s e) hp hm
      exact ⟨h1, fun hin => h2 ((scanImageStep_sets s e).1 p.2 hin)⟩

/-- A rescan only newly enqueues handles outside the processed sets. -/
theorem scan_new_not_processed {s : ContentState} {p : EKind × Nat}
    (hp : p ∈ (scanContentForModeration s).enqueueLog)
    (hnew : p ∉ s.enqueueLog) :
    (p.1 = EKind.text → p.2 ∉ s.textElementsProcessed)
    ∧ (p.1 = EKind.image → p.2 ∉ s.imageElementsProcessed) := by
  unfold scanContentForModeration at hp
  split at hp
  · exact absurd hp hnew
  dsimp only at hp
  have hp2 : p ∈ ((imageCandidates ((textCandidates s.dom).foldl scanTextStep s).dom).foldl
      scanImageStep ((textCandidates s.dom).foldl scanTextStep s)).enqueueLog := by
    split at hp
    · rw [processNextBatchC_log] at hp
      exact hp
    · exact hp
  by_cases hm1 : p ∈ ((textCandidates s.dom).foldl scanTextStep s).enqueueLog
  · by_cases hm0 : p ∈ s.enqueueLog
    · exact absurd hm0 hnew
    obtain ⟨hfst, hset⟩ := scanTextFold_new (textCandidates s.dom) s p hm1 hm0
    refine ⟨fun _ => hset, fun hf => ?_⟩
    rw [hfst] at hf
    exact absurd hf (by decide)
  · obtain ⟨hfst, hset⟩ := scanImageFold_new _ _ p hp2 hm1
    rw [scanTextFold_imageSet] at hset
    refine ⟨fun hf => ?_, fun _ => hset⟩
    rw [hfst] at hf
    exact absurd hf (by decide)

theorem scanImageStep_csig (s : ContentState) (e : Elem) :
    domCSig (scanImageStep s e).dom = domCSig s.dom := by
  unfold scanImageStep
  split
  · rfl
  split
  · rfl
  · exact domCSig_domAddClass s.dom e.id EXCLUSION_CLASS

theorem scanImageFold_csig (l : List Elem) (s : ContentState) :
    domCSig (l.foldl scanImageStep s).dom = domCSig s.dom := by
  induction l generalizing s with
  | nil => rfl
  | cons e rest ih =>
    rw [List.foldl_cons, ih (scanImageStep s e), scanImageStep_csig]

theorem processNextBatchC_dom (s : ContentState) :
    (processNextBatchC s).dom = s.dom := by
  unfold processNextBatchC
  split <;> rfl

/-- A scan changes no element's text content or source. -/
theorem scan_csig (s : ContentState) :
    domCSig (scanContentForModeration s).dom = domCSig s.dom := by
  unfold scanContentForModeration
  split
  · rfl
  dsimp only
  split
  · rw [processNextBatchC_dom, scanImageFold_csig, scanTextFold_csig]
  · rw [scanImageFold_csig, scanTextFold_csig]

/-- The identity/processed-marker signature of the DOM. -/
def exclSig (dom : List Elem) : List (Nat × Bool) :=
  dom.map fun e => (e.id, hasClass e EXCLUSION_CLASS)

theorem exclSig_map (dom : List Elem) (f : Elem → Elem)
    (h : ∀ e, (f e).id = e.id
      ∧ hasClass (f e) EXCLUSION_CLASS = hasClass e EXCLUSION_CLASS) :
    exclSig (dom.map f) = exclSig dom := by
  unfold exclSig
  rw [List.map_map]
  exact List.map_congr_left fun e _ => by
    simp only [Function.comp_apply, (h e).1, (h e).2]

theorem restoreElem_exclSig (dom : List Elem) (i : Nat) (orig : String) :
    exclSig (restoreElem dom i orig) = exclSig dom := by
  unfold restoreElem
  refine exclSig_map dom _ fun e => ?_
  split
  · split
    · refine ⟨rfl, ?_⟩
      simp only [hasClass]
      exact contains_removeClass_ne
        (by decide : EXCLUSION_CLASS ≠ "socioio-encrypted") e.classes
    · exact ⟨rfl, rfl⟩
  · exact ⟨rfl, rfl⟩

theorem restoreFold_exclSig (m : List (Nat × String)) (dom : List Elem) :
    exclSig (m.foldl (fun d p => restoreElem d p.1 p.2) dom) = exclSig dom := by
  induction m generalizing dom with
  | nil => rfl
  | cons q rest ih =>
    rw [List.foldl_cons, ih (restoreElem dom q.1 q.2), restoreElem_exclSig]

theorem restore_exclSig (s : ContentState) :
    exclSig (restoreOriginalContent s).dom = exclSig s.dom := by
  unfold restoreOriginalContent
  dsimp only
  rw [exclSig_map _ _ fun e => by split <;> exact ⟨rfl, rfl⟩]
  exact restoreFold_exclSig s.encryptedElements s.dom

/-- C10: disabling then re-enabling protection never reprocesses — the
restore on disable leaves both processed sets, the queue, the enqueue
audit log and every element's processed-marker class untouched; the rescan
on re-enable only newly enqueues handles outside the pre-disable processed
sets; and the rescan changes no element's text content, so previously
redacted elements stay in their restored state. -/
theorem disableEnableNoReprocess (s : ContentState) :
    (toggleProtection false s).textElementsProcessed = s.textElementsProcessed
    ∧ (toggleProtection false s).imageElementsProcessed = s.imageElementsProcessed
    ∧ (toggleProtection false s).processingQueue = s.processingQueue
    ∧ (toggleProtection false s).enqueueLog = s.enqueueLog
    ∧ exclSig (toggleProtection false s).dom = exclSig s.dom
    ∧ (∀ p ∈ (toggleProtection true (toggleProtection false s)).enqueueLog,
        p ∉ (toggleProtection false s).enqueueLog →
        (p.1 = EKind.text → p.2 ∉ s.textElementsProcessed)
        ∧ (p.1 = EKind.image → p.2 ∉ s.imageElementsProcessed))
    ∧ domCSig (toggleProtection true (toggleProtection false s)).dom
        = domCSig (toggleProtection false s).dom := by
  have ht : toggleProtection true (toggleProtection false s)
      = scanContentForModeration { toggleProtection false s with isEnabled := true } := rfl
  refine ⟨rfl, rfl, rfl, rfl, restore_exclSig _, ?_, ?_⟩
  · intro p hp hnew
    rw [ht] at hp
    exact scan_new_not_processed
      (s := { toggleProtection false s with isEnabled := true }) hp hnew
  · rw [ht]
    exact scan_csig _

end Socio
